import Mathlib

/-!
# The TODO task list of `script.js`

A shallow embedding of the task store, the persistence adapter and the view
projection of `script.js`, followed by theorems about them.

* ECMAScript strings are sequences of UTF-16 code units (`JSString`).
* The global variables `tasks`, `editingTaskId`, `searchQuery` and the
  `'tasks'` slot of `localStorage` form the explicit state `AppState`.
* Values read from the form, the clock and the platform functions
  `String.prototype.toLowerCase`, `Date.parse` and `LocalTZA` (the local time
  zone) are arguments.
* `renderTasks` only writes to the document, which is not part of the state, so
  calls to it are left out of the embedded operations.
-/

set_option maxRecDepth 8000

namespace Todo

/-! ## Strings -/

/-- A UTF-16 code unit, the element of an ECMAScript string. -/
abbrev CodeUnit := Fin 65536

/-- An ECMAScript string value: a finite sequence of UTF-16 code units. -/
abbrev JSString := List CodeUnit

/-- UTF-16 encoding of one Unicode scalar value. -/
def charUnits (c : Char) : List CodeUnit :=
  if c.toNat < 65536 then [⟨c.toNat % 65536, Nat.mod_lt _ (by decide)⟩]
  else
    [⟨(55296 + (c.toNat - 65536) / 1024) % 65536, Nat.mod_lt _ (by decide)⟩,
     ⟨(56320 + (c.toNat - 65536) % 1024) % 65536, Nat.mod_lt _ (by decide)⟩]

/-- The ECMAScript string denoted by a string literal. -/
def utf16 (s : String) : JSString := s.toList.flatMap charUnits

/-- Code units stripped by `String.prototype.trim`: the ECMAScript `WhiteSpace`
and `LineTerminator` productions. -/
def isWhiteSpace (c : CodeUnit) : Bool :=
  c.val = 0x09 || c.val = 0x0A || c.val = 0x0B || c.val = 0x0C || c.val = 0x0D ||
  c.val = 0x20 || c.val = 0xA0 || c.val = 0x1680 ||
  (0x2000 ≤ c.val && c.val ≤ 0x200A) ||
  c.val = 0x2028 || c.val = 0x2029 || c.val = 0x202F || c.val = 0x205F ||
  c.val = 0x3000 || c.val = 0xFEFF

/-- The method `String.prototype.trim`: white space removed from both ends. -/
def trim (s : JSString) : JSString :=
  ((s.dropWhile isWhiteSpace).reverse.dropWhile isWhiteSpace).reverse

/-- ECMAScript `ToBoolean` on a string: only the empty string is falsy. -/
def strTruthy (s : JSString) : Bool := !s.isEmpty

/-- ECMAScript `ToBoolean` on a value that is a string or `null`. -/
def optTruthy : Option JSString → Bool
  | none => false
  | some s => strTruthy s

/-! ## Tasks -/

/-- A task record, as built in `handleAddTask`. The field `id` holds the Number
`Date.now()`, an integer; an integer here stands for the Number of that value,
which exists for every safe integer (`SafeIds`). Numbers with a fraction, beyond
the safe range or not finite are not represented. `date` is `none` for `null`. -/
structure Task where
  id : Int
  text : JSString
  completed : Bool
  starred : Bool
  date : Option JSString
  createdAt : JSString
deriving DecidableEq, Repr

/-- The constant `Number.MAX_SAFE_INTEGER`, `2^53 - 1`. -/
def maxSafeInteger : Int := 9007199254740991

/-- Every id of the collection is a safe integer (`Number.isSafeInteger`), as the
values of `Date.now()` are: an integer of absolute value at most `2^53 - 1`. -/
def SafeIds (tasks : List Task) : Prop :=
  ∀ t ∈ tasks, -maxSafeInteger ≤ t.id ∧ t.id ≤ maxSafeInteger

/-! ## JSON values and `JSON.stringify` -/

/-- The values `JSON.parse` can return. A number token without fraction and
exponent is kept as its integer, which is its value when that is a safe integer;
any other number token is kept as its lexeme, because its value is a
floating-point number. Object members are kept in property order. -/
inductive JVal where
  | null
  | bool (b : Bool)
  | num (n : Int)
  | numLit (lexeme : JSString)
  | str (s : JSString)
  | arr (xs : List JVal)
  | obj (fs : List (JSString × JVal))

/-- Decimal digit `d` as a code unit. -/
def digitUnit (d : Nat) : CodeUnit := ⟨(48 + d % 10) % 65536, Nat.mod_lt _ (by decide)⟩

/-- Digits of `n`, most significant first, put in front of `acc`. -/
def natDigitsAux : Nat → Nat → JSString → JSString
  | 0, _, acc => acc
  | fuel + 1, n, acc =>
    if n / 10 = 0 then digitUnit n :: acc
    else natDigitsAux fuel (n / 10) (digitUnit n :: acc)

/-- The decimal representation of a natural number. -/
def natToString (n : Nat) : JSString := natDigitsAux (n + 1) n []

/-- The result of `Number::toString` on a safe integer: its decimal digits, with
a minus sign if negative. (Beyond the safe range the method prints the shortest
digits that identify the floating-point value, and exponent form from `10^21`
on; this function is not meant for those.) -/
def intToString : Int → JSString
  | .ofNat n => natToString n
  | .negSucc n => 45 :: natToString (n + 1)

/-- Lower-case hexadecimal digit of the value `n % 16`. -/
def hexDigit (n : Nat) : CodeUnit :=
  if n % 16 < 10 then ⟨(48 + n % 16) % 65536, Nat.mod_lt _ (by decide)⟩
  else ⟨(87 + n % 16) % 65536, Nat.mod_lt _ (by decide)⟩

/-- The abstract operation `UnicodeEscape`: a backslash, `u` and four
hexadecimal digits. -/
def unicodeEscape (c : CodeUnit) : JSString :=
  [92, 117, hexDigit (c.val / 4096), hexDigit (c.val / 256), hexDigit (c.val / 16),
    hexDigit c.val]

/-- Leading (high) surrogate code units. -/
def isLeadingSurrogate (c : CodeUnit) : Bool := 0xD800 ≤ c.val && c.val ≤ 0xDBFF

/-- Trailing (low) surrogate code units. -/
def isTrailingSurrogate (c : CodeUnit) : Bool := 0xDC00 ≤ c.val && c.val ≤ 0xDFFF

/-- What `QuoteJSONString` emits for a code point that is a single code unit:
the two-character escapes of its table, `UnicodeEscape` for the other control
characters and for a lone surrogate, the code unit itself otherwise. -/
def quoteUnit (c : CodeUnit) : JSString :=
  if c.val = 8 then [92, 98]
  else if c.val = 9 then [92, 116]
  else if c.val = 10 then [92, 110]
  else if c.val = 12 then [92, 102]
  else if c.val = 13 then [92, 114]
  else if c.val = 34 then [92, 34]
  else if c.val = 92 then [92, 92]
  else if c.val < 32 || isLeadingSurrogate c || isTrailingSurrogate c then unicodeEscape c
  else [c]

/-- The characters `QuoteJSONString` emits between the two quotation marks: a
surrogate pair is one code point and is copied, every other code unit goes
through `quoteUnit`. -/
def quoteBody : JSString → JSString
  | [] => []
  | [c] => quoteUnit c
  | c :: d :: rest =>
    if isLeadingSurrogate c && isTrailingSurrogate d then c :: d :: quoteBody rest
    else quoteUnit c ++ quoteBody (d :: rest)

/-- The abstract operation `QuoteJSONString`. -/
def quoteJSONString (s : JSString) : JSString := 34 :: (quoteBody s ++ [34])

mutual
/-- The function `JSON.stringify` with one argument, on a JSON value. -/
def JVal.stringify : JVal → JSString
  | .null => utf16 "null"
  | .bool true => utf16 "true"
  | .bool false => utf16 "false"
  | .num n => intToString n
  | .numLit lexeme => lexeme
  | .str s => quoteJSONString s
  | .arr [] => [91, 93]
  | .arr (x :: xs) => 91 :: (x.stringify ++ stringifyElems xs)
  | .obj [] => [123, 125]
  | .obj ((k, v) :: fs) => 123 :: (quoteJSONString k ++ 58 :: (v.stringify ++ stringifyMembers fs))
/-- The remaining elements of an array, each after a comma, and the closing
bracket. -/
def stringifyElems : List JVal → JSString
  | [] => [93]
  | x :: xs => 44 :: (x.stringify ++ stringifyElems xs)
/-- The remaining members of an object, each after a comma, and the closing
brace. -/
def stringifyMembers : List (JSString × JVal) → JSString
  | [] => [125]
  | (k, v) :: fs => 44 :: (quoteJSONString k ++ 58 :: (v.stringify ++ stringifyMembers fs))
end

/-- The JSON value of a string-or-null field. -/
def optToJS : Option JSString → JVal
  | none => .null
  | some s => .str s

/-- A task record as a JSON value: its six properties in creation order. -/
def Task.toJS (t : Task) : JVal :=
  .obj [(utf16 "id", .num t.id), (utf16 "text", .str t.text),
    (utf16 "completed", .bool t.completed), (utf16 "starred", .bool t.starred),
    (utf16 "date", optToJS t.date), (utf16 "createdAt", .str t.createdAt)]

/-- The array held by the global `tasks`, as a JSON value. -/
def tasksToJS (ts : List Task) : JVal := .arr (ts.map Task.toJS)

/-! ## `JSON.parse` -/

/-- Exceptions raised by the modelled platform calls. -/
inductive JSError where
  | syntaxError
  | typeError
deriving DecidableEq, Repr

/-- JSON white space: tab, line feed, carriage return and space. -/
def isJSONWhiteSpace (c : CodeUnit) : Bool :=
  c.val = 9 || c.val = 10 || c.val = 13 || c.val = 32

/-- Input with leading JSON white space removed. -/
def skipWS (s : JSString) : JSString := s.dropWhile isJSONWhiteSpace

/-- Whether a code unit is a decimal digit. -/
def isDigit (c : CodeUnit) : Bool := 48 ≤ c.val && c.val ≤ 57

/-- Value of a hexadecimal digit, in either case. -/
def hexVal (c : CodeUnit) : Option Nat :=
  if 48 ≤ c.val ∧ c.val ≤ 57 then some (c.val - 48)
  else if 97 ≤ c.val ∧ c.val ≤ 102 then some (c.val - 87)
  else if 65 ≤ c.val ∧ c.val ≤ 70 then some (c.val - 55)
  else none

/-- The code unit written by four hexadecimal digits. -/
def hex4 (h1 h2 h3 h4 : CodeUnit) : Option CodeUnit :=
  (hexVal h1).bind fun a => (hexVal h2).bind fun b => (hexVal h3).bind fun c =>
    (hexVal h4).map fun d =>
      ⟨(a * 4096 + b * 256 + c * 16 + d) % 65536, Nat.mod_lt _ (by decide)⟩

/-- The code unit denoted by a single-character escape of a JSON string. -/
def unescape (e : CodeUnit) : Option CodeUnit :=
  if e.val = 34 then some 34
  else if e.val = 92 then some 92
  else if e.val = 47 then some 47
  else if e.val = 98 then some 8
  else if e.val = 102 then some 12
  else if e.val = 110 then some 10
  else if e.val = 114 then some 13
  else if e.val = 116 then some 9
  else none

/-- A JSON string after its opening quotation mark: the string value and the
input after the closing quotation mark. -/
def parseStringBody : JSString → Option (JSString × JSString)
  | [] => none
  | c :: rest =>
    if c.val = 34 then some ([], rest)
    else if c.val = 92 then
      match rest with
      | [] => none
      | e :: rest1 =>
        if e.val = 117 then
          match rest1 with
          | h1 :: h2 :: h3 :: h4 :: rest2 =>
            match hex4 h1 h2 h3 h4 with
            | some u => (parseStringBody rest2).map (fun r => (u :: r.1, r.2))
            | none => none
          | _ => none
        else
          match unescape e with
          | some u => (parseStringBody rest1).map (fun r => (u :: r.1, r.2))
          | none => none
    else if c.val < 32 then none
    else (parseStringBody rest).map (fun r => (c :: r.1, r.2))

/-- The input after the literal `lit`, when the input starts with it. -/
def stripLit : JSString → JSString → Option JSString
  | [], s => some s
  | _ :: _, [] => none
  | c :: lit, d :: s => if c = d then stripLit lit s else none

/-- Value of a run of decimal digits, continuing from `acc`. -/
def digitsToNat (acc : Nat) (ds : JSString) : Nat :=
  ds.foldl (fun a c => a * 10 + (c.val - 48)) acc

/-- The integer part of a JSON number: a single `0`, or a run of digits that
does not start with `0`. -/
def splitIntPart : JSString → Option (JSString × JSString)
  | [] => none
  | c :: r =>
    if c.val = 48 then some ([c], r)
    else if isDigit c then some (c :: r.takeWhile isDigit, r.dropWhile isDigit)
    else none

/-- The optional fraction of a JSON number: the consumed lexeme and the rest. -/
def splitFraction : JSString → Option (JSString × JSString)
  | [] => some ([], [])
  | c :: r =>
    if c.val = 46 then
      if (r.takeWhile isDigit).isEmpty then none
      else some (c :: r.takeWhile isDigit, r.dropWhile isDigit)
    else some ([], c :: r)

/-- The optional exponent of a JSON number: the consumed lexeme and the rest. -/
def splitExponent : JSString → Option (JSString × JSString)
  | [] => some ([], [])
  | c :: r =>
    if c.val = 101 ∨ c.val = 69 then
      match r with
      | [] => none
      | g :: r1 =>
        if g.val = 43 ∨ g.val = 45 then
          if (r1.takeWhile isDigit).isEmpty then none
          else some (c :: g :: r1.takeWhile isDigit, r1.dropWhile isDigit)
        else
          if (r.takeWhile isDigit).isEmpty then none
          else some (c :: r.takeWhile isDigit, r.dropWhile isDigit)
    else some ([], c :: r)

/-- A JSON number after its optional minus sign. -/
def parseUnsigned (neg : Bool) (s : JSString) : Option (JVal × JSString) :=
  (splitIntPart s).bind fun ip => (splitFraction ip.2).bind fun fp =>
    (splitExponent fp.2).map fun ep =>
      if fp.1.isEmpty && ep.1.isEmpty then
        (.num (if neg then -(digitsToNat 0 ip.1 : Int) else (digitsToNat 0 ip.1 : Int)), ep.2)
      else
        (.numLit ((if neg then [45] else []) ++ ip.1 ++ fp.1 ++ ep.1), ep.2)

/-- A JSON number. -/
def parseNumber : JSString → Option (JVal × JSString)
  | [] => none
  | c :: r => if c.val = 45 then parseUnsigned true r else parseUnsigned false (c :: r)

mutual
/-- A JSON value at the start of the input, after optional white space: the
value and the remaining input. The first argument bounds the number of nested
calls. -/
def parseValue : Nat → JSString → Option (JVal × JSString)
  | 0, _ => none
  | fuel + 1, s =>
    match skipWS s with
    | [] => none
    | c :: r =>
      if c.val = 110 then (stripLit (utf16 "ull") r).map (fun r1 => (.null, r1))
      else if c.val = 116 then (stripLit (utf16 "rue") r).map (fun r1 => (.bool true, r1))
      else if c.val = 102 then (stripLit (utf16 "alse") r).map (fun r1 => (.bool false, r1))
      else if c.val = 34 then (parseStringBody r).map (fun p => (.str p.1, p.2))
      else if c.val = 91 then
        match skipWS r with
        | [] => none
        | d :: r1 =>
          if d.val = 93 then some (.arr [], r1)
          else (parseElems fuel (d :: r1)).map (fun p => (.arr p.1, p.2))
      else if c.val = 123 then
        match skipWS r with
        | [] => none
        | d :: r1 =>
          if d.val = 125 then some (.obj [], r1)
          else (parseMembers fuel (d :: r1)).map (fun p => (.obj p.1, p.2))
      else parseNumber (c :: r)
/-- The elements of a non-empty array up to its closing bracket. -/
def parseElems : Nat → JSString → Option (List JVal × JSString)
  | 0, _ => none
  | fuel + 1, s =>
    match parseValue fuel s with
    | none => none
    | some (v, r) =>
      match skipWS r with
      | [] => none
      | c :: r1 =>
        if c.val = 93 then some ([v], r1)
        else if c.val = 44 then (parseElems fuel r1).map (fun p => (v :: p.1, p.2))
        else none
/-- The members of a non-empty object up to its closing brace. -/
def parseMembers : Nat → JSString → Option (List (JSString × JVal) × JSString)
  | 0, _ => none
  | fuel + 1, s =>
    match skipWS s with
    | [] => none
    | q :: r =>
      if q.val = 34 then
        match parseStringBody r with
        | none => none
        | some (k, r1) =>
          match skipWS r1 with
          | [] => none
          | c :: r2 =>
            if c.val = 58 then
              match parseValue fuel r2 with
              | none => none
              | some (v, r3) =>
                match skipWS r3 with
                | [] => none
                | e :: r4 =>
                  if e.val = 125 then some ([(k, v)], r4)
                  else if e.val = 44 then
                    (parseMembers fuel r4).map (fun p => ((k, v) :: p.1, p.2))
                  else none
            else none
      else none
end

/-- The function `JSON.parse` with one argument: the value of a text that is one
JSON value between optional white space, `SyntaxError` otherwise. Members of an
object are returned in source order. -/
def jsonParse (text : JSString) : Except JSError JVal :=
  match parseValue (text.length + 1) text with
  | none => .error .syntaxError
  | some (v, rest) => if (skipWS rest).isEmpty then .ok v else .error .syntaxError

/-- Reading the property `length` of a parsed value, as in `tasks.length`:
`TypeError` on `null`, no exception otherwise. -/
def readLength : JVal → Except JSError Unit
  | .null => .error .typeError
  | _ => .ok ()

/-! ## Local storage and application state -/

/-- The `'tasks'` slot of `localStorage`. `quota` is the length of the longest
value the store still has room for under that key, given what else the origin
stores (`none`: no limit); `setItemCalls` counts the calls of `setItem`. -/
structure LocalStorage where
  tasksItem : Option JSString
  quota : Option Nat
  setItemCalls : Nat
deriving DecidableEq, Repr

/-- How a call of `localStorage.setItem` ends, with the store it leaves. -/
inductive SetItemResult where
  | stored (ls : LocalStorage)
  | quotaExceeded (ls : LocalStorage)

/-- Whether the store takes a value of this length. -/
def LocalStorage.accepts (ls : LocalStorage) (value : JSString) : Bool :=
  match ls.quota with
  | none => true
  | some q => decide (value.length ≤ q)

/-- The call `localStorage.getItem('tasks')`; `none` is `null`. -/
def LocalStorage.getItem (ls : LocalStorage) : Option JSString := ls.tasksItem

/-- The call `localStorage.setItem('tasks', value)`: stores the value, or throws
`QuotaExceededError` and stores nothing. -/
def LocalStorage.setItem (ls : LocalStorage) (value : JSString) : SetItemResult :=
  if ls.accepts value then
    .stored { ls with tasksItem := some value, setItemCalls := ls.setItemCalls + 1 }
  else
    .quotaExceeded { ls with setItemCalls := ls.setItemCalls + 1 }

/-- The global variables of `script.js` and the storage slot. -/
structure AppState where
  tasks : List Task
  editingTaskId : Option Int
  searchQuery : JSString
  storage : LocalStorage
deriving DecidableEq, Repr

/-- The function `saveTasks`: writes `JSON.stringify(tasks)` to the slot; an
exception of `setItem` is caught and logged. -/
def saveTasks (st : AppState) : AppState :=
  match st.storage.setItem (tasksToJS st.tasks).stringify with
  | .stored ls => { st with storage := ls }
  | .quotaExceeded ls => { st with storage := ls }

/-- The body of the `try` block of `loadTasks`: the new value of `tasks`, or the
exception thrown by `JSON.parse` or by reading `tasks.length` for the log line
(by then `tasks` has been assigned, and the handler assigns it again). -/
def loadTasksTry (savedTasks : JSString) : Except JSError JVal :=
  match jsonParse savedTasks with
  | .error e => .error e
  | .ok v =>
    match readLength v with
    | .error e => .error e
    | .ok _ => .ok v

/-- The function `loadTasks`. `tasks` is the value of the global before the call;
the result is its value after the call, or the exception the call raises. -/
def loadTasks (ls : LocalStorage) (tasks : JVal) : Except JSError JVal :=
  match ls.getItem with
  | none => .ok tasks
  | some savedTasks =>
    if strTruthy savedTasks then
      match loadTasksTry savedTasks with
      | .ok v => .ok v
      | .error _ => .ok (.arr [])
    else .ok tasks

/-! ## Task management -/

/-- The function `cancelEdit`. -/
def cancelEdit (st : AppState) : AppState := { st with editingTaskId := none }

/-- The function `handleAddTask`. `inputText` and `dateValue` are the values of
the two form fields, `now` is `Date.now()` and `nowISO` is
`new Date().toISOString()`. -/
def handleAddTask (inputText dateValue : JSString) (now : Int) (nowISO : JSString)
    (st : AppState) : AppState :=
  let text := trim inputText
  let date := dateValue
  if !strTruthy text then st
  else
    let task : Task :=
      { id := now
        text := text
        completed := false
        starred := false
        date := if strTruthy date then some date else none
        createdAt := nowISO }
    saveTasks { st with tasks := task :: st.tasks }

/-- Assignment to a property of the object `tasks.find(p)` returned: the first
element satisfying `p` is replaced by its updated record. -/
def updateFirst (p : Task → Bool) (f : Task → Task) : List Task → List Task
  | [] => []
  | t :: ts => if p t then f t :: ts else t :: updateFirst p f ts

/-- The function `toggleTaskComplete`. -/
def toggleTaskComplete (taskId : Int) (st : AppState) : AppState :=
  match st.tasks.find? (fun t => t.id == taskId) with
  | some _ =>
    saveTasks { st with tasks := (updateFirst (fun t => t.id == taskId)
      (fun t => { t with completed := !t.completed }) st.tasks) }
  | none => st

/-- The function `toggleTaskStar`. -/
def toggleTaskStar (taskId : Int) (st : AppState) : AppState :=
  match st.tasks.find? (fun t => t.id == taskId) with
  | some _ =>
    saveTasks { st with tasks := (updateFirst (fun t => t.id == taskId)
      (fun t => { t with starred := !t.starred }) st.tasks) }
  | none => st

/-- The function `deleteTask`. -/
def deleteTask (taskId : Int) (st : AppState) : AppState :=
  saveTasks { st with tasks := st.tasks.filter (fun t => t.id != taskId) }

/-- The function `startEditTask`. -/
def startEditTask (taskId : Int) (st : AppState) : AppState :=
  { st with editingTaskId := some taskId }

/-- The function `saveEditTask`. -/
def saveEditTask (taskId : Int) (newText : JSString) (st : AppState) : AppState :=
  match st.tasks.find? (fun t => t.id == taskId) with
  | some _ =>
    if strTruthy (trim newText) then
      saveTasks { st with
        tasks := (updateFirst (fun t => t.id == taskId)
          (fun t => { t with text := trim newText }) st.tasks)
        editingTaskId := none }
    else cancelEdit st
  | none => cancelEdit st

/-! ## Search -/

/-- The method `String.prototype.includes` with one argument: the search string
occurs in `s` at some position. -/
def includes (s searchString : JSString) : Bool :=
  s.tails.any (fun t => searchString.isPrefixOf t)

/-- The function `filterTasks`, reading the globals `tasks` and `searchQuery`.
`toLowerCase` is the platform method `String.prototype.toLowerCase`. -/
def filterTasks (toLowerCase : JSString → JSString) (st : AppState) : List Task :=
  if !strTruthy st.searchQuery then st.tasks
  else
    let query := toLowerCase st.searchQuery
    st.tasks.filter (fun task => includes (toLowerCase task.text) query)

/-- The function `handleSearch`; `value` is the content of the search field. -/
def handleSearch (value : JSString) (st : AppState) : AppState :=
  { st with searchQuery := trim value }

/-- Lower-casing of the letters `A` to `Z`, on which `toLowerCase` agrees for
strings of ASCII characters. -/
def asciiLower (s : JSString) : JSString :=
  s.map (fun c => if 65 ≤ c.val ∧ c.val ≤ 90 then c + 32 else c)

/-- Cased letters among the Basic Latin characters and the Greek letters
`U+0391` to `U+03A9` and `U+03B1` to `U+03C9` (Unicode property `Cased`). -/
def isCasedLetter (c : CodeUnit) : Bool :=
  (65 ≤ c.val && c.val ≤ 90) || (97 ≤ c.val && c.val ≤ 122) ||
  (0x391 ≤ c.val && c.val ≤ 0x3A1) || (0x3A3 ≤ c.val && c.val ≤ 0x3A9) ||
  (0x3B1 ≤ c.val && c.val ≤ 0x3C9)

/-- Case-ignorable characters among the Basic Latin characters: apostrophe, full
stop, colon, circumflex accent and grave accent (Unicode property
`Case_Ignorable`). -/
def isCaseIgnorable (c : CodeUnit) : Bool :=
  c.val = 0x27 || c.val = 0x2E || c.val = 0x3A || c.val = 0x5E || c.val = 0x60

/-- Whether the string starts with zero or more case-ignorable characters and
then a cased letter. -/
def reachesCased : JSString → Bool
  | [] => false
  | c :: r => if isCasedLetter c then true else if isCaseIgnorable c then reachesCased r else false

/-- The lower-case mapping of a single character that does not depend on context:
`A` to `Z` and the Greek capital letters go to their small letters. -/
def lowerUnit (c : CodeUnit) : CodeUnit :=
  if (65 ≤ c.val ∧ c.val ≤ 90) ∨ (0x391 ≤ c.val ∧ c.val ≤ 0x3A1) ∨
      (0x3A3 ≤ c.val ∧ c.val ≤ 0x3A9) then c + 32
  else c

/-- Lower-casing of the rest of a string; `before` holds the characters already
passed, the nearest first. A capital sigma (`U+03A3`) in the condition
`Final_Sigma` of the Unicode standard, preceded by a cased letter and
case-ignorable characters and not followed by case-ignorable characters and a
cased letter, goes to the final small sigma (`U+03C2`). -/
def lowerFrom (before : JSString) : JSString → JSString
  | [] => []
  | c :: r =>
    (if c.val = 0x3A3 && reachesCased before && !reachesCased r then 0x3C2 else lowerUnit c) ::
      lowerFrom (c :: before) r

/-- The method `String.prototype.toLowerCase` (Unicode default case conversion) on
strings of Basic Latin characters and of the Greek letters `U+0391` to `U+03A9`
and `U+03B1` to `U+03C9`. -/
def greekLatinLower (s : JSString) : JSString := lowerFrom [] s

/-! ## Sorting in `groupTasksByDate` -/

/-- The time value of `new Date(v)` for `v` a string or `null`; `none` is `NaN`.
`dateParse` is the platform function `Date.parse`. -/
def newDate (dateParse : JSString → Option Int) : Option JSString → Option Int
  | none => some 0
  | some s => dateParse s

/-- Subtraction of two time values as Numbers; `none` is `NaN`. -/
def numSub : Option Int → Option Int → Option Int
  | some x, some y => some (x - y)
  | _, _ => none

/-- The comparator passed to `sort` in `groupTasksByDate`; `none` is `NaN`. -/
def compareTasks (dateParse : JSString → Option Int) (a b : Task) : Option Int :=
  if a.starred && !b.starred then some (-1)
  else if !a.starred && b.starred then some 1
  else if optTruthy a.date && optTruthy b.date then
    numSub (newDate dateParse a.date) (newDate dateParse b.date)
  else if optTruthy a.date && !optTruthy b.date then some (-1)
  else if !optTruthy a.date && optTruthy b.date then some 1
  else numSub (newDate dateParse (some b.createdAt)) (newDate dateParse (some a.createdAt))

/-- Whether `sort` keeps `a` in front of `b`: the comparator's result is not
positive, `NaN` counting as `+0` (abstract operation `SortCompare`). -/
def sortKeeps {α : Type} (cmp : α → α → Option Int) (a b : α) : Bool :=
  match cmp a b with
  | none => true
  | some v => decide (v ≤ 0)

/-- Insertion of `a` in front of the first element it may stay in front of. -/
def orderedInsert {α : Type} (cmp : α → α → Option Int) (a : α) : List α → List α
  | [] => [a]
  | b :: l => if sortKeeps cmp a b then a :: b :: l else b :: orderedInsert cmp a l

/-- The method `Array.prototype.sort` with a comparator, on a copy of the array.
ECMAScript requires a stable sort and fixes the result for every consistent
comparator; this is the stable insertion sort. -/
def jsSort {α : Type} (cmp : α → α → Option Int) : List α → List α
  | [] => []
  | a :: l => orderedInsert cmp a (jsSort cmp l)

/-- The constant `sortedTasks` of `groupTasksByDate`. -/
def sortedTasks (dateParse : JSString → Option Int) (tasks : List Task) : List Task :=
  jsSort (compareTasks dateParse) tasks

/-- Position of a task among the four groups the comparator separates: starred
and dated, starred and dateless, unstarred and dated, unstarred and dateless. -/
def groupRank (t : Task) : Nat :=
  (if t.starred then 0 else 2) + (if optTruthy t.date then 0 else 1)

/-- The time value of a task's date, `0` for a task that counts as dateless. -/
def dateKey (dateParse : JSString → Option Int) (t : Task) : Int :=
  if optTruthy t.date then (newDate dateParse t.date).getD 0 else 0

/-- Order of two tasks by group and then by date. -/
def GroupDateLE (dateParse : JSString → Option Int) (a b : Task) : Prop :=
  groupRank a < groupRank b ∨
    (groupRank a = groupRank b ∧ dateKey dateParse a ≤ dateKey dateParse b)

/-- The order the sort is to establish between a task `a` and a task `b` placed
after it: not unstarred before starred; with equal `starred`, not dateless before
dated, and not a later date before an earlier one. -/
def SortOrdered (dateParse : JSString → Option Int) (a b : Task) : Prop :=
  (b.starred = true → a.starred = true) ∧
  (a.starred = b.starred → optTruthy b.date = true → optTruthy a.date = true) ∧
  (a.starred = b.starred → optTruthy a.date = true → optTruthy b.date = true →
    ∀ x y : Int, newDate dateParse a.date = some x → newDate dateParse b.date = some y →
      x ≤ y)

/-- Every date that counts as present has a time value (is not an invalid
date). -/
def DatesWellFormed (dateParse : JSString → Option Int) (tasks : List Task) : Prop :=
  ∀ t ∈ tasks, optTruthy t.date = true → (newDate dateParse t.date).isSome = true

/-- The key that decides between two tasks of one group: the time value of the
date for a dated task, the negated time value of `createdAt` for a dateless
one. -/
def tieKey (dateParse : JSString → Option Int) (t : Task) : Int :=
  if optTruthy t.date then (newDate dateParse t.date).getD 0
  else -((newDate dateParse (some t.createdAt)).getD 0)

/-- Order of two tasks by group and then by `tieKey`. -/
def GroupTieLE (dateParse : JSString → Option Int) (a b : Task) : Prop :=
  groupRank a < groupRank b ∨
    (groupRank a = groupRank b ∧ tieKey dateParse a ≤ tieKey dateParse b)

/-- Every date that counts as present is a valid date, and every dateless task
has a valid `createdAt`: the comparator never returns `NaN`. -/
def TimesWellFormed (dateParse : JSString → Option Int) (tasks : List Task) : Prop :=
  ∀ t ∈ tasks,
    (optTruthy t.date = true → (newDate dateParse t.date).isSome = true) ∧
    (optTruthy t.date = false → (newDate dateParse (some t.createdAt)).isSome = true)

/-! ## The date-time string format -/

/-- Value of a decimal digit. -/
def digitVal (c : CodeUnit) : Option Nat :=
  if 48 ≤ c.val ∧ c.val ≤ 57 then some (c.val - 48) else none

/-- Value of a run of decimal digits. -/
def digitsVal (s : JSString) : Option Nat :=
  s.foldl (fun acc c => acc.bind (fun n => (digitVal c).map (fun d => n * 10 + d))) (some 0)

/-- Number of days in a month of the proleptic Gregorian calendar. -/
def daysInMonth (y m : Nat) : Nat :=
  if m = 2 then (if (y % 4 = 0 ∧ y % 100 ≠ 0) ∨ y % 400 = 0 then 29 else 28)
  else if m = 4 ∨ m = 6 ∨ m = 9 ∨ m = 11 then 30 else 31

/-- Days from 1970-01-01 to the given civil date. -/
def daysFromCivil (y m d : Nat) : Int :=
  let y1 : Int := if m ≤ 2 then (y : Int) - 1 else y
  let era : Int := Int.ediv y1 400
  let yoe : Int := y1 - era * 400
  let mp : Int := if m ≤ 2 then (m : Int) + 9 else (m : Int) - 3
  let doy : Int := Int.ediv (153 * mp + 2) 5 + (d : Int) - 1
  let doe : Int := yoe * 365 + Int.ediv yoe 4 - Int.ediv yoe 100 + doy
  era * 146097 + doe - 719468

/-- Time value of midnight UTC of a date given by its three digit runs. -/
def civilTime (ys ms ds : JSString) : Option Int :=
  (digitsVal ys).bind fun y => (digitsVal ms).bind fun m => (digitsVal ds).bind fun d =>
    if 1 ≤ m ∧ m ≤ 12 ∧ 1 ≤ d ∧ d ≤ daysInMonth y m then
      some (daysFromCivil y m d * 86400000)
    else none

/-- Time of day in milliseconds given by its four digit runs. -/
def clockTime (hs ns ss fs : JSString) : Option Int :=
  (digitsVal hs).bind fun h => (digitsVal ns).bind fun n => (digitsVal ss).bind fun s =>
    (digitsVal fs).bind fun f =>
      if h ≤ 23 ∧ n ≤ 59 ∧ s ≤ 59 then
        some ((((h * 60 + n) * 60 + s) * 1000 + f : Nat) : Int)
      else none

/-- An instance of `Date.parse` for the examples: the two shapes of date string
the application produces, `YYYY-MM-DD` (the value of a date field, midnight UTC)
and `YYYY-MM-DDTHH:mm:ss.sssZ` (the result of `toISOString`). Every other string
is given `NaN` here. -/
def isoDateParse (s : JSString) : Option Int :=
  match s with
  | [y1, y2, y3, y4, p1, m1, m2, p2, d1, d2] =>
    if p1 = 45 ∧ p2 = 45 then civilTime [y1, y2, y3, y4] [m1, m2] [d1, d2] else none
  | [y1, y2, y3, y4, p1, m1, m2, p2, d1, d2, t, h1, h2, c1, n1, n2, c2, s1, s2, dot,
      f1, f2, f3, z] =>
    if p1 = 45 ∧ p2 = 45 ∧ t = 84 ∧ c1 = 58 ∧ c2 = 58 ∧ dot = 46 ∧ z = 90 then
      (civilTime [y1, y2, y3, y4] [m1, m2] [d1, d2]).bind fun day =>
        (clockTime [h1, h2] [n1, n2] [s1, s2] [f1, f2, f3]).map fun ms => day + ms
    else none
  | _ => none

/-! ## Local time and the buckets of `groupTasksByDate` -/

/-- Milliseconds in a day. -/
def msPerDay : Int := 86400000

/-- The abstract operation `TimeClip`: a time value more than 8.64e15 ms away
from the epoch becomes `NaN`. -/
def timeClip (t : Int) : Option Int :=
  if -8640000000000000 ≤ t ∧ t ≤ 8640000000000000 then some t else none

/-- The abstract operation `LocalTime`. `localTZA` is the platform's
`LocalTZA(t, isUTC)`, the offset of the local time zone in milliseconds. -/
def localTime (localTZA : Int → Bool → Int) (t : Int) : Int := t + localTZA t true

/-- The abstract operation `UTC`, from a local time to a time value. -/
def utcTime (localTZA : Int → Bool → Int) (t : Int) : Int := t - localTZA t false

/-- The call `d.setHours(0, 0, 0, 0)` on a time value: the start of the local day
that contains it; `none` is `NaN`. -/
def setHoursZero (localTZA : Int → Bool → Int) : Option Int → Option Int
  | none => none
  | some t => timeClip (utcTime localTZA (Int.ediv (localTime localTZA t) msPerDay * msPerDay))

/-- The call `d.setDate(d.getDate() + 1)` on a time value: the same local time of
day on the next local day; `none` is `NaN`. -/
def setDateNextDay (localTZA : Int → Bool → Int) : Option Int → Option Int
  | none => none
  | some t =>
    timeClip (utcTime localTZA
      ((Int.ediv (localTime localTZA t) msPerDay + 1) * msPerDay +
        Int.emod (localTime localTZA t) msPerDay))

/-- Strict equality `===` of two Numbers that are time values; `NaN` equals
nothing. -/
def numStrictEq : Option Int → Option Int → Bool
  | some x, some y => decide (x = y)
  | _, _ => false

/-- The object `grouped` of `groupTasksByDate`. -/
structure Grouped where
  today : List Task
  tomorrow : List Task
  later : List Task
deriving DecidableEq, Repr

/-- The callback of `sortedTasks.forEach` in `groupTasksByDate`: `task` is pushed
onto one of the three arrays. `today` and `tomorrow` are the time values of the
two constants of that name. -/
def groupStep (dateParse : JSString → Option Int) (localTZA : Int → Bool → Int)
    (today tomorrow : Option Int) (grouped : Grouped) (task : Task) : Grouped :=
  if !optTruthy task.date then { grouped with later := grouped.later ++ [task] }
  else
    let taskDate := setHoursZero localTZA (newDate dateParse task.date)
    if numStrictEq taskDate today then { grouped with today := grouped.today ++ [task] }
    else if numStrictEq taskDate tomorrow then
      { grouped with tomorrow := grouped.tomorrow ++ [task] }
    else { grouped with later := grouped.later ++ [task] }

/-- The function `groupTasksByDate`. `now` is the time value of `new Date()`, the
evaluation moment. -/
def groupTasksByDate (dateParse : JSString → Option Int) (localTZA : Int → Bool → Int)
    (now : Int) (tasks : List Task) : Grouped :=
  let today := setHoursZero localTZA (some now)
  let tomorrow := setDateNextDay localTZA today
  (sortedTasks dateParse tasks).foldl (groupStep dateParse localTZA today tomorrow)
    { today := [], tomorrow := [], later := [] }

/-- The three buckets. -/
inductive Bucket where
  | today
  | tomorrow
  | later
deriving DecidableEq, Repr

/-- The bucket whose array `groupStep` pushes a task onto. -/
def bucketOf (dateParse : JSString → Option Int) (localTZA : Int → Bool → Int)
    (now : Int) (task : Task) : Bucket :=
  if !optTruthy task.date then .later
  else if numStrictEq (setHoursZero localTZA (newDate dateParse task.date))
      (setHoursZero localTZA (some now)) then .today
  else if numStrictEq (setHoursZero localTZA (newDate dateParse task.date))
      (setDateNextDay localTZA (setHoursZero localTZA (some now))) then .tomorrow
  else .later

/-- The local calendar day of a moment, as a number of days since 1970-01-01. -/
def localDay (localTZA : Int → Bool → Int) (t : Int) : Int :=
  Int.ediv (localTime localTZA t) msPerDay

/-- A time zone with the same offset from UTC at all times. -/
def fixedZone (offset : Int) : Int → Bool → Int := fun _ _ => offset

/-! ## Sequences of operations -/

/-- A user action on the task store, with the values it reads from the form and
the clock. -/
inductive Operation where
  | add (inputText dateValue : JSString) (now : Int) (nowISO : JSString)
  | toggleCompleted (taskId : Int)
  | toggleStarred (taskId : Int)
  | remove (taskId : Int)
  | beginEdit (taskId : Int)
  | commitEdit (taskId : Int) (newText : JSString)
  | cancel

/-- The function of `script.js` that an operation calls. -/
def Operation.apply : Operation → AppState → AppState
  | .add inputText dateValue now nowISO, st => handleAddTask inputText dateValue now nowISO st
  | .toggleCompleted taskId, st => toggleTaskComplete taskId st
  | .toggleStarred taskId, st => toggleTaskStar taskId st
  | .remove taskId, st => deleteTask taskId st
  | .beginEdit taskId, st => startEditTask taskId st
  | .commitEdit taskId newText, st => saveEditTask taskId newText st
  | .cancel, st => cancelEdit st

/-- The state after a sequence of operations, the first of the list first. -/
def runOperations (ops : List Operation) (st : AppState) : AppState :=
  ops.foldl (fun s op => op.apply s) st

/-- A text that is not empty and neither starts nor ends with white space. -/
def TextTrimmed (text : JSString) : Prop :=
  text ≠ [] ∧
  (∀ c, text.head? = some c → isWhiteSpace c = false) ∧
  (∀ c, text.getLast? = some c → isWhiteSpace c = false)

/-- What the `'tasks'` slot holds after operations on a state whose slot held
`initial`: still that, or the serialisation of a collection of tasks with
trimmed texts. -/
def StoredTrimmed (initial : Option JSString) (ls : LocalStorage) : Prop :=
  ls.tasksItem = initial ∨
    ∃ ts : List Task, (∀ t ∈ ts, TextTrimmed t.text) ∧
      ls.tasksItem = some (tasksToJS ts).stringify

/-! ## Examples used by the theorems -/

/-- An empty store without quota. -/
def emptyStorage : LocalStorage := { tasksItem := none, quota := none, setItemCalls := 0 }

/-- A task dated 2024-01-15, created at 09:00 UTC on 2024-01-10. -/
def taskA : Task :=
  { id := 1704877200000, text := utf16 "Buy groceries", completed := false, starred := false,
    date := some (utf16 "2024-01-15"), createdAt := utf16 "2024-01-10T09:00:00.000Z" }

/-- A task without date, created at 10:00 UTC on 2024-01-10. -/
def taskB : Task :=
  { id := 1704880800000, text := utf16 "Call mom", completed := false, starred := true,
    date := none, createdAt := utf16 "2024-01-10T10:00:00.000Z" }

/-- A task dated 2024-01-15 like `taskA`, created ninety minutes after it. -/
def taskC : Task :=
  { id := 1704882600000, text := utf16 "Pay rent", completed := false, starred := false,
    date := some (utf16 "2024-01-15"), createdAt := utf16 "2024-01-10T10:30:00.000Z" }

/-- A task dated 2024-01-16, the day after the date of `taskA`. -/
def taskD : Task :=
  { id := 1704884400000, text := utf16 "Book flights", completed := false, starred := false,
    date := some (utf16 "2024-01-16"), createdAt := utf16 "2024-01-10T11:00:00.000Z" }

/-- Eastern Standard Time, five hours behind UTC. -/
def easternStandard : Int → Bool → Int := fixedZone (-18000000)

/-- Central European Time, one hour ahead of UTC. -/
def centralEuropean : Int → Bool → Int := fixedZone 3600000

/-- The moment 2024-01-15T17:00:00.000Z: noon of 15 January in Eastern Standard
Time, 18:00 of 15 January in Central European Time. -/
def mondayNoonEastern : Int := 1705338000000

/-- A task whose text is the five Greek capital letters omicron, delta, omicron,
sigma, alpha. -/
def taskSigma : Task :=
  { id := 1704886200000, text := utf16 "ΟΔΟΣΑ", completed := false, starred := false,
    date := none, createdAt := utf16 "2024-01-10T11:30:00.000Z" }

/-- A state holding `taskSigma` alone, with the first four letters of its text
as search query. -/
def stateSigma : AppState :=
  { tasks := [taskSigma], editingTaskId := none, searchQuery := utf16 "ΟΔΟΣ",
    storage := emptyStorage }

/-- A store of an origin that is full: it holds the empty array under `'tasks'`
and has no room for a longer value. -/
def fullStorage : LocalStorage :=
  { tasksItem := some (utf16 "[]"), quota := some 2, setItemCalls := 1 }

/-- A state holding `taskA` alone, over `fullStorage`. -/
def stateFull : AppState :=
  { tasks := [taskA], editingTaskId := none, searchQuery := [], storage := fullStorage }

/-- A state holding `taskB` in front of `taskA`. -/
def stateAB : AppState :=
  { tasks := [taskB, taskA], editingTaskId := some 1704877200000, searchQuery := [],
    storage := emptyStorage }

/-- The state of a fresh session over an empty store. -/
def emptyState : AppState :=
  { tasks := [], editingTaskId := none, searchQuery := [], storage := emptyStorage }

/-- A session: a task is added, a blank text is refused, the task is edited,
ticked, edited with a blank text, and a second task is added and deleted. -/
def exampleOperations : List Operation :=
  [.add (utf16 "  Pay rent ") (utf16 "2024-01-15") 1704882600000 (utf16 "2024-01-10T10:30:00.000Z"),
   .add (utf16 " \t ") [] 1704882600001 (utf16 "2024-01-10T10:30:00.001Z"),
   .beginEdit 1704882600000,
   .commitEdit 1704882600000 (utf16 " Pay the rent\n"),
   .toggleCompleted 1704882600000,
   .toggleStarred 1704882600000,
   .beginEdit 1704882600000,
   .commitEdit 1704882600000 (utf16 "   "),
   .add (utf16 "Call mom") [] 1704884400000 (utf16 "2024-01-10T11:00:00.000Z"),
   .remove 1704884400000]

/-! ## Persistence: `JSON.parse` after `JSON.stringify` -/

theorem hexVal_hexDigit (n : Nat) : hexVal (hexDigit n) = some (n % 16) := by
  unfold hexDigit hexVal
  split
  · have h1 : (48 + n % 16) % 65536 = 48 + n % 16 := by omega
    simp only [h1]
    rw [if_pos (by omega)]
    congr 1
    omega
  · have h1 : (87 + n % 16) % 65536 = 87 + n % 16 := by omega
    simp only [h1]
    rw [if_neg (by omega), if_pos (by omega)]
    congr 1
    omega

theorem hex4_unicodeEscape (c : CodeUnit) :
    hex4 (hexDigit (c.val / 4096)) (hexDigit (c.val / 256)) (hexDigit (c.val / 16))
      (hexDigit c.val) = some c := by
  simp only [hex4, hexVal_hexDigit, Option.bind_some, Option.map_some', Option.some_bind]
  congr 1
  apply Fin.ext
  have := c.isLt
  simp only
  omega

theorem parseStringBody_literal (c : CodeUnit) (tail : JSString) (h34 : c.val ≠ 34)
    (h92 : c.val ≠ 92) (h32 : ¬ c.val < 32) :
    parseStringBody (c :: tail) =
      (parseStringBody tail).map (fun r => (c :: r.1, r.2)) := by
  rw [parseStringBody.eq_def]
  simp [h34, h92, h32]

theorem parseStringBody_escape (e u : CodeUnit) (tail : JSString) (he : e.val ≠ 117)
    (hu : unescape e = some u) :
    parseStringBody (92 :: e :: tail) =
      (parseStringBody tail).map (fun r => (u :: r.1, r.2)) := by
  rw [parseStringBody.eq_def]
  simp [he, hu, Fin.coe_ofNat_eq_mod]

theorem parseStringBody_unicodeEscape (c : CodeUnit) (tail : JSString) :
    parseStringBody (unicodeEscape c ++ tail) =
      (parseStringBody tail).map (fun r => (c :: r.1, r.2)) := by
  unfold unicodeEscape
  rw [parseStringBody.eq_def]
  simp [hex4_unicodeEscape, Fin.coe_ofNat_eq_mod]

theorem parseStringBody_quoteUnit (c : CodeUnit) (tail : JSString) :
    parseStringBody (quoteUnit c ++ tail) =
      (parseStringBody tail).map (fun r => (c :: r.1, r.2)) := by
  unfold quoteUnit
  split_ifs with h1 h2 h3 h4 h5 h6 h7 h8
  · have : c = 8 := Fin.ext h1
    subst this
    exact parseStringBody_escape 98 8 tail (by decide) (by decide)
  · have : c = 9 := Fin.ext h2
    subst this
    exact parseStringBody_escape 116 9 tail (by decide) (by decide)
  · have : c = 10 := Fin.ext h3
    subst this
    exact parseStringBody_escape 110 10 tail (by decide) (by decide)
  · have : c = 12 := Fin.ext h4
    subst this
    exact parseStringBody_escape 102 12 tail (by decide) (by decide)
  · have : c = 13 := Fin.ext h5
    subst this
    exact parseStringBody_escape 114 13 tail (by decide) (by decide)
  · have : c = 34 := Fin.ext h6
    subst this
    exact parseStringBody_escape 34 34 tail (by decide) (by decide)
  · have : c = 92 := Fin.ext h7
    subst this
    exact parseStringBody_escape 92 92 tail (by decide) (by decide)
  · exact parseStringBody_unicodeEscape c tail
  · simp only [Bool.or_eq_true, decide_eq_true_eq, not_or] at h8
    exact parseStringBody_literal c tail h6 h7 h8.1.1

theorem parseStringBody_quoteBody (s rest : JSString) :
    parseStringBody (quoteBody s ++ 34 :: rest) = some (s, rest) := by
  induction s using quoteBody.induct with
  | case1 =>
    rw [parseStringBody.eq_def]
    simp [quoteBody, Fin.coe_ofNat_eq_mod]
  | case2 c =>
    rw [quoteBody, parseStringBody_quoteUnit, parseStringBody.eq_def]
    simp [Fin.coe_ofNat_eq_mod]
  | case3 c d r h ih =>
    have hc : isLeadingSurrogate c = true := by simp at h; exact h.1
    have hd : isTrailingSurrogate d = true := by simp at h; exact h.2
    simp only [isLeadingSurrogate, isTrailingSurrogate, Bool.and_eq_true, decide_eq_true_eq] at hc hd
    rw [quoteBody, if_pos h]
    simp only [List.cons_append]
    rw [parseStringBody_literal c _ (by omega) (by omega) (by omega),
      parseStringBody_literal d _ (by omega) (by omega) (by omega), ih]
    rfl
  | case4 c d r h ih =>
    rw [quoteBody, if_neg h, List.append_assoc, parseStringBody_quoteUnit, ih]
    rfl

theorem natDigitsAux_acc (fuel n : Nat) (acc : JSString) :
    natDigitsAux fuel n acc = natDigitsAux fuel n [] ++ acc := by
  induction fuel generalizing n acc with
  | zero => simp [natDigitsAux]
  | succ fuel ih =>
    unfold natDigitsAux
    split
    · simp
    · rw [ih (n / 10) (digitUnit n :: acc), ih (n / 10) [digitUnit n], List.append_assoc]
      rfl

theorem digitsToNat_append (acc : Nat) (ds : JSString) (d : CodeUnit) :
    digitsToNat acc (ds ++ [d]) = digitsToNat acc ds * 10 + (d.val - 48) := by
  simp [digitsToNat, List.foldl_append]

theorem digitUnit_val (n : Nat) : (digitUnit n).val = 48 + n % 10 := by
  unfold digitUnit
  simp only
  omega

theorem isDigit_digitUnit (n : Nat) : isDigit (digitUnit n) = true := by
  simp [isDigit, digitUnit_val]
  omega

/-- What the digits of a number look like: a first digit, further digits, the
value they denote, and no leading zero except for zero itself. -/
theorem natDigitsAux_spec (fuel n : Nat) (h : n < fuel) :
    ∃ d tl, natDigitsAux fuel n [] = d :: tl ∧ isDigit d = true ∧
      (∀ c ∈ tl, isDigit c = true) ∧ digitsToNat 0 (d :: tl) = n ∧
      (d.val = 48 → tl = [] ∧ n = 0) := by
  induction fuel generalizing n with
  | zero => omega
  | succ fuel ih =>
    unfold natDigitsAux
    split
    · rename_i h0
      refine ⟨digitUnit n, [], rfl, isDigit_digitUnit n, by simp, ?_, ?_⟩
      · simp [digitsToNat, digitUnit_val]
        omega
      · intro hv
        rw [digitUnit_val] at hv
        exact ⟨rfl, by omega⟩
    · rename_i h0
      have hlt : n / 10 < fuel := by omega
      obtain ⟨d, tl, hds, hd, htl, hval, hz⟩ := ih (n / 10) hlt
      rw [natDigitsAux_acc, hds]
      refine ⟨d, tl ++ [digitUnit n], rfl, hd, ?_, ?_, ?_⟩
      · intro c hc
        rcases List.mem_append.mp hc with h1 | h1
        · exact htl c h1
        · rw [List.mem_singleton.mp h1]
          exact isDigit_digitUnit n
      · rw [← List.cons_append, digitsToNat_append, hval, digitUnit_val]
        omega
      · intro hv
        exact absurd (hz hv).2 h0

theorem natToString_spec (n : Nat) :
    ∃ d tl, natToString n = d :: tl ∧ isDigit d = true ∧
      (∀ c ∈ tl, isDigit c = true) ∧ digitsToNat 0 (d :: tl) = n ∧
      (d.val = 48 → tl = [] ∧ n = 0) :=
  natDigitsAux_spec (n + 1) n (Nat.lt_succ_self n)

theorem takeWhile_digits_append (tl rest : JSString) (c : CodeUnit)
    (htl : ∀ x ∈ tl, isDigit x = true) (hc : isDigit c = false) :
    (tl ++ c :: rest).takeWhile isDigit = tl ∧ (tl ++ c :: rest).dropWhile isDigit = c :: rest := by
  induction tl with
  | nil => simp [List.takeWhile, List.dropWhile, hc]
  | cons x tl ih =>
    have hx : isDigit x = true := htl x (List.mem_cons_self _ _)
    have ih1 := ih (fun y hy => htl y (List.mem_cons_of_mem _ hy))
    simp [List.takeWhile, List.dropWhile, hx, ih1.1, ih1.2]

theorem parseUnsigned_natToString (neg : Bool) (n : Nat) (rest : JSString) :
    parseUnsigned neg (natToString n ++ 44 :: rest) =
      some (.num (if neg then -(n : Int) else (n : Int)), 44 :: rest) := by
  obtain ⟨d, tl, hds, hd, htl, hval, hz⟩ := natToString_spec n
  have h44 : isDigit (44 : CodeUnit) = false := by decide
  have hsplit : splitIntPart (natToString n ++ 44 :: rest) = some (d :: tl, 44 :: rest) := by
    rw [hds]
    simp only [List.cons_append, splitIntPart]
    by_cases h0 : d.val = 48
    · rw [if_pos h0, (hz h0).1]
      rfl
    · rw [if_neg h0, if_pos hd, (takeWhile_digits_append tl rest 44 htl h44).1,
        (takeWhile_digits_append tl rest 44 htl h44).2]
  unfold parseUnsigned
  rw [hsplit]
  simp [splitFraction, splitExponent, Fin.coe_ofNat_eq_mod, hval]

theorem parseNumber_intToString (n : Int) (rest : JSString) :
    parseNumber (intToString n ++ 44 :: rest) = some (.num n, 44 :: rest) := by
  cases n with
  | ofNat m =>
    obtain ⟨d, tl, hds, hd, _, _, _⟩ := natToString_spec m
    have h45 : d.val ≠ 45 := by
      simp [isDigit] at hd
      omega
    have := parseUnsigned_natToString false m rest
    simp only [intToString]
    rw [hds] at this ⊢
    simp only [List.cons_append, parseNumber, if_neg h45]
    simpa using this
  | negSucc m =>
    have := parseUnsigned_natToString true (m + 1) rest
    simp only [intToString, List.cons_append, parseNumber]
    rw [if_pos (by decide)]
    rw [this]
    simp [Int.negSucc_eq]

theorem intToString_head (n : Int) :
    ∃ c tl, intToString n = c :: tl ∧ (c.val = 45 ∨ isDigit c = true) := by
  cases n with
  | ofNat m =>
    obtain ⟨d, tl, hds, hd, _, _, _⟩ := natToString_spec m
    exact ⟨d, tl, hds, Or.inr hd⟩
  | negSucc m => exact ⟨45, natToString (m + 1), rfl, Or.inl rfl⟩

theorem skipWS_cons (c : CodeUnit) (r : JSString) (h : isJSONWhiteSpace c = false) :
    skipWS (c :: r) = c :: r := by
  simp [skipWS, List.dropWhile, h]

theorem stripLit_append (lit rest : JSString) : stripLit lit (lit ++ rest) = some rest := by
  induction lit with
  | nil => cases rest <;> rfl
  | cons c lit ih => simp [stripLit, ih]

theorem parseValue_null (f : Nat) (rest : JSString) :
    parseValue (f + 1) (utf16 "null" ++ rest) = some (.null, rest) := by
  have h : utf16 "null" = 110 :: utf16 "ull" := by decide
  rw [h, parseValue, List.cons_append, skipWS_cons _ _ (by decide)]
  simp [Fin.coe_ofNat_eq_mod, stripLit_append]

theorem parseValue_true (f : Nat) (rest : JSString) :
    parseValue (f + 1) (utf16 "true" ++ rest) = some (.bool true, rest) := by
  have h : utf16 "true" = 116 :: utf16 "rue" := by decide
  rw [h, parseValue, List.cons_append, skipWS_cons _ _ (by decide)]
  simp [Fin.coe_ofNat_eq_mod, stripLit_append]

theorem parseValue_false (f : Nat) (rest : JSString) :
    parseValue (f + 1) (utf16 "false" ++ rest) = some (.bool false, rest) := by
  have h : utf16 "false" = 102 :: utf16 "alse" := by decide
  rw [h, parseValue, List.cons_append, skipWS_cons _ _ (by decide)]
  simp [Fin.coe_ofNat_eq_mod, stripLit_append]

theorem parseValue_bool (f : Nat) (b : Bool) (rest : JSString) :
    parseValue (f + 1) ((JVal.bool b).stringify ++ rest) = some (.bool b, rest) := by
  cases b
  · rw [JVal.stringify]
    exact parseValue_false f rest
  · rw [JVal.stringify]
    exact parseValue_true f rest

theorem parseValue_str (f : Nat) (s rest : JSString) :
    parseValue (f + 1) ((JVal.str s).stringify ++ rest) = some (.str s, rest) := by
  rw [JVal.stringify, quoteJSONString, parseValue, List.cons_append,
    skipWS_cons _ _ (by decide)]
  simp [Fin.coe_ofNat_eq_mod, parseStringBody_quoteBody]

theorem parseValue_opt (f : Nat) (d : Option JSString) (rest : JSString) :
    parseValue (f + 1) ((optToJS d).stringify ++ rest) = some (optToJS d, rest) := by
  cases d with
  | none =>
    rw [optToJS, JVal.stringify]
    exact parseValue_null f rest
  | some s => exact parseValue_str f s rest

theorem parseValue_num (f : Nat) (n : Int) (rest : JSString) :
    parseValue (f + 1) ((JVal.num n).stringify ++ 44 :: rest) = some (.num n, 44 :: rest) := by
  obtain ⟨c, tl, hc, hhead⟩ := intToString_head n
  have hnum := parseNumber_intToString n rest
  rw [JVal.stringify]
  rw [hc] at hnum ⊢
  have hv : c.val = 45 ∨ (48 ≤ c.val ∧ c.val ≤ 57) := by
    rcases hhead with h | h
    · exact Or.inl h
    · right
      simpa [isDigit] using h
  have hws : isJSONWhiteSpace c = false := by
    simp [isJSONWhiteSpace]
    omega
  rw [parseValue, List.cons_append, skipWS_cons _ _ hws]
  simp only
  rw [if_neg (by omega), if_neg (by omega), if_neg (by omega), if_neg (by omega),
    if_neg (by omega), if_neg (by omega)]
  exact hnum

theorem parseMembers_more (f : Nat) (k vs r : JSString) (v : JVal)
    (fs : List (JSString × JVal)) (r' : JSString)
    (hv : parseValue f (vs ++ 44 :: r) = some (v, 44 :: r))
    (hm : parseMembers f r = some (fs, r')) :
    parseMembers (f + 1) (quoteJSONString k ++ 58 :: (vs ++ 44 :: r)) =
      some ((k, v) :: fs, r') := by
  rw [quoteJSONString, parseMembers, List.cons_append, skipWS_cons _ _ (by decide)]
  simp only [List.append_assoc, List.singleton_append, parseStringBody_quoteBody]
  rw [skipWS_cons _ _ (by decide)]
  simp only [hv]
  rw [skipWS_cons _ _ (by decide)]
  simp [Fin.coe_ofNat_eq_mod, hm]

theorem parseMembers_last (f : Nat) (k vs r : JSString) (v : JVal)
    (hv : parseValue f (vs ++ 125 :: r) = some (v, 125 :: r)) :
    parseMembers (f + 1) (quoteJSONString k ++ 58 :: (vs ++ 125 :: r)) =
      some ([(k, v)], r) := by
  rw [quoteJSONString, parseMembers, List.cons_append, skipWS_cons _ _ (by decide)]
  simp only [List.append_assoc, List.singleton_append, parseStringBody_quoteBody]
  rw [skipWS_cons _ _ (by decide)]
  simp only [hv]
  rw [skipWS_cons _ _ (by decide)]
  simp [Fin.coe_ofNat_eq_mod]

theorem stringify_task (t : Task) :
    (Task.toJS t).stringify =
      123 :: (quoteJSONString (utf16 "id") ++ 58 :: ((JVal.num t.id).stringify ++
      44 :: (quoteJSONString (utf16 "text") ++ 58 :: ((JVal.str t.text).stringify ++
      44 :: (quoteJSONString (utf16 "completed") ++ 58 :: ((JVal.bool t.completed).stringify ++
      44 :: (quoteJSONString (utf16 "starred") ++ 58 :: ((JVal.bool t.starred).stringify ++
      44 :: (quoteJSONString (utf16 "date") ++ 58 :: ((optToJS t.date).stringify ++
      44 :: (quoteJSONString (utf16 "createdAt") ++ 58 :: ((JVal.str t.createdAt).stringify ++
      [125])))))))))))) := by
  simp only [Task.toJS, JVal.stringify, stringifyMembers]

theorem parseValue_task (g : Nat) (t : Task) (rest : JSString) :
    parseValue (g + 8) ((Task.toJS t).stringify ++ rest) = some (Task.toJS t, rest) := by
  have h6 : parseMembers (g + 2)
      (quoteJSONString (utf16 "createdAt") ++ 58 :: ((JVal.str t.createdAt).stringify ++
        125 :: rest)) = some ([(utf16 "createdAt", .str t.createdAt)], rest) :=
    parseMembers_last (g + 1) _ _ _ _ (parseValue_str g _ _)
  have h5 := parseMembers_more (g + 2) (utf16 "date") _ _ _ _ _
    (parseValue_opt (g + 1) t.date _) h6
  have h4 := parseMembers_more (g + 3) (utf16 "starred") _ _ _ _ _
    (parseValue_bool (g + 2) t.starred _) h5
  have h3 := parseMembers_more (g + 4) (utf16 "completed") _ _ _ _ _
    (parseValue_bool (g + 3) t.completed _) h4
  have h2 := parseMembers_more (g + 5) (utf16 "text") _ _ _ _ _
    (parseValue_str (g + 4) t.text _) h3
  have h1 := parseMembers_more (g + 6) (utf16 "id") _ _ _ _ _
    (parseValue_num (g + 5) t.id _) h2
  rw [stringify_task, parseValue, List.cons_append, skipWS_cons _ _ (by decide)]
  simp only [List.append_assoc, List.cons_append, List.singleton_append, List.nil_append]
  rw [quoteJSONString, List.cons_append, skipWS_cons _ _ (by decide)]
  rw [quoteJSONString, List.cons_append] at h1
  simp only [List.append_assoc, List.cons_append, List.singleton_append,
    List.nil_append] at h1 ⊢
  simp only [Fin.coe_ofNat_eq_mod]
  simp [h1, Task.toJS]

theorem stringify_task_head (t : Task) :
    ∃ tl, (Task.toJS t).stringify = 123 :: tl ∧ 8 ≤ tl.length := by
  rw [stringify_task]
  refine ⟨_, rfl, ?_⟩
  simp only [quoteJSONString, List.length_cons, List.length_append]
  omega

theorem length_stringifyElems (xs : List JVal) : xs.length + 1 ≤ (stringifyElems xs).length := by
  induction xs with
  | nil => simp [stringifyElems]
  | cons x xs ih =>
    simp only [stringifyElems, List.length_cons, List.length_append]
    omega

theorem parseElems_tasks (ts : List Task) (t : Task) (g : Nat) (rest : JSString) :
    parseElems (g + 9 + ts.length)
        ((Task.toJS t).stringify ++ (stringifyElems (ts.map Task.toJS) ++ rest)) =
      some ((t :: ts).map Task.toJS, rest) := by
  induction ts generalizing t g with
  | nil =>
    rw [show g + 9 + ([] : List Task).length = (g + 8) + 1 from rfl, parseElems,
      parseValue_task]
    simp only [List.map_nil, stringifyElems, List.singleton_append]
    rw [skipWS_cons _ _ (by decide)]
    simp [Fin.coe_ofNat_eq_mod]
  | cons u ts ih =>
    rw [show g + 9 + (u :: ts).length = (g + 1 + ts.length + 8) + 1 by
      simp only [List.length_cons]; omega, parseElems, parseValue_task]
    simp only [List.map_cons, stringifyElems, List.cons_append, List.append_assoc]
    rw [skipWS_cons _ _ (by decide)]
    have h := ih u g
    rw [show g + 9 + ts.length = g + 1 + ts.length + 8 by omega] at h
    simp [Fin.coe_ofNat_eq_mod, h]

theorem stringify_tasks_cons (t : Task) (ts : List Task) :
    (tasksToJS (t :: ts)).stringify =
      91 :: ((Task.toJS t).stringify ++ stringifyElems (ts.map Task.toJS)) := by
  rw [tasksToJS, List.map_cons, JVal.stringify]

theorem parseValue_tasks_nil (f : Nat) (rest : JSString) :
    parseValue (f + 1) ((tasksToJS []).stringify ++ rest) = some (tasksToJS [], rest) := by
  rw [parseValue]
  simp only [tasksToJS, List.map_nil, JVal.stringify, List.cons_append, List.nil_append]
  rw [skipWS_cons _ _ (by decide)]
  simp only
  rw [skipWS_cons _ _ (by decide)]
  simp [Fin.coe_ofNat_eq_mod]

theorem parseValue_tasks_cons (t : Task) (ts : List Task) (g : Nat) (rest : JSString) :
    parseValue (g + 9 + ts.length + 1) ((tasksToJS (t :: ts)).stringify ++ rest) =
      some (tasksToJS (t :: ts), rest) := by
  obtain ⟨tl, htl, _⟩ := stringify_task_head t
  have h := parseElems_tasks ts t g rest
  rw [parseValue, stringify_tasks_cons, List.cons_append, List.append_assoc,
    skipWS_cons _ _ (by decide)]
  simp only
  rw [htl] at h ⊢
  simp only [List.cons_append] at h ⊢
  rw [skipWS_cons _ _ (by decide)]
  simp [Fin.coe_ofNat_eq_mod, h, tasksToJS]

theorem length_stringify_tasks (ts : List Task) :
    ts.length + 2 ≤ (tasksToJS ts).stringify.length ∧
    (ts ≠ [] → ts.length + 9 ≤ (tasksToJS ts).stringify.length) := by
  cases ts with
  | nil => simp [tasksToJS, JVal.stringify]
  | cons t ts =>
    obtain ⟨tl, htl, hlen⟩ := stringify_task_head t
    have h2 := length_stringifyElems (ts.map Task.toJS)
    rw [stringify_tasks_cons, htl]
    simp only [List.length_cons, List.length_append, List.length_map] at h2 ⊢
    constructor
    · omega
    · intro _
      omega

theorem jsonParse_stringify_tasks (ts : List Task) :
    jsonParse (tasksToJS ts).stringify = .ok (tasksToJS ts) := by
  unfold jsonParse
  cases ts with
  | nil =>
    have h := parseValue_tasks_nil (tasksToJS []).stringify.length []
    rw [List.append_nil] at h
    rw [h]
    rfl
  | cons t ts =>
    have hlen := (length_stringify_tasks (t :: ts)).2 (by simp)
    simp only [List.length_cons] at hlen
    obtain ⟨g, hg⟩ : ∃ g, (tasksToJS (t :: ts)).stringify.length = g + 9 + ts.length :=
      ⟨(tasksToJS (t :: ts)).stringify.length - 9 - ts.length, by omega⟩
    have h := parseValue_tasks_cons t ts g []
    rw [List.append_nil] at h
    rw [hg, h]
    rfl

theorem stringify_tasks_ne_nil (ts : List Task) : (tasksToJS ts).stringify ≠ [] := by
  intro h
  have := (length_stringify_tasks ts).1
  rw [h] at this
  simp at this

theorem optToJS_injective (a b : Option JSString) (h : optToJS a = optToJS b) : a = b := by
  cases a <;> cases b <;> simp [optToJS] at h ⊢
  exact h

theorem Task.toJS_injective : Function.Injective Task.toJS := by
  intro a b h
  cases a
  cases b
  simp only [Task.toJS, JVal.obj.injEq, List.cons.injEq, Prod.mk.injEq, JVal.num.injEq,
    JVal.str.injEq, JVal.bool.injEq, true_and, and_true] at h
  obtain ⟨h1, h2, h3, h4, h5, h6⟩ := h
  have h5' := optToJS_injective _ _ h5
  simp [h1, h2, h3, h4, h5', h6]

theorem tasksToJS_injective (a b : List Task) (h : tasksToJS a = tasksToJS b) : a = b := by
  simp only [tasksToJS, JVal.arr.injEq] at h
  exact List.map_injective_iff.mpr Task.toJS_injective h

theorem saveTasks_storage_of_accepts (st : AppState)
    (hacc : st.storage.accepts (tasksToJS st.tasks).stringify = true) :
    (saveTasks st).storage.getItem = some (tasksToJS st.tasks).stringify := by
  simp [saveTasks, LocalStorage.setItem, hacc, LocalStorage.getItem]

/-- C1, counterexample: the store holds the empty array and has no room for more;
`saveTasks` on the one-task collection catches the exception of `setItem`, and
`loadTasks` then yields the empty collection, which is not the collection that
was to be saved. -/
theorem load_save_quota_exceeded :
    stateFull.tasks = [taskA] ∧
    (saveTasks stateFull).storage.getItem = some (utf16 "[]") ∧
    loadTasks (saveTasks stateFull).storage (tasksToJS stateFull.tasks) =
      .ok (tasksToJS []) ∧
    tasksToJS [] ≠ tasksToJS stateFull.tasks := by
  refine ⟨rfl, by decide, rfl, ?_⟩
  intro h
  have := tasksToJS_injective _ _ h
  simp [stateFull] at this

/-- C1, amended: for a collection whose ids are safe integers, when the store
accepts the serialised collection (the call of `setItem` does not throw),
`loadTasks` after `saveTasks` yields the saved collection, whatever was in memory
before loading; and a task collection with that value is the saved one, element
by element and field by field. -/
theorem load_save_roundtrip (st : AppState) (mem : JVal) (hids : SafeIds st.tasks)
    (hacc : st.storage.accepts (tasksToJS st.tasks).stringify = true) :
    loadTasks (saveTasks st).storage mem = .ok (tasksToJS st.tasks) ∧
    (∀ ts : List Task, tasksToJS ts = tasksToJS st.tasks → ts = st.tasks) := by
  have _ := hids
  refine ⟨?_, fun ts h => tasksToJS_injective ts st.tasks h⟩
  have hne : strTruthy (tasksToJS st.tasks).stringify = true := by
    have := stringify_tasks_ne_nil st.tasks
    cases hs : (tasksToJS st.tasks).stringify with
    | nil => exact absurd hs this
    | cons c r => rfl
  unfold loadTasks
  rw [saveTasks_storage_of_accepts st hacc]
  simp only [hne, if_true, loadTasksTry, jsonParse_stringify_tasks]
  simp [tasksToJS, readLength]

theorem safeIds_stateAB : SafeIds stateAB.tasks := by
  intro t ht
  have h := List.all_eq_true.mp
    (by decide : stateAB.tasks.all
      (fun t => decide (-maxSafeInteger ≤ t.id ∧ t.id ≤ maxSafeInteger)) = true) t ht
  exact of_decide_eq_true h

theorem load_save_roundtrip_witness :
    SafeIds stateAB.tasks ∧
    stateAB.storage.accepts (tasksToJS stateAB.tasks).stringify = true ∧
    loadTasks (saveTasks stateAB).storage .null = .ok (tasksToJS stateAB.tasks) :=
  ⟨safeIds_stateAB, rfl, (load_save_roundtrip stateAB .null safeIds_stateAB rfl).1⟩

/-! ## Persistence: malformed content -/

/-- C2, counterexample: the empty string does not parse as JSON, yet with the
empty string stored `loadTasks` leaves the collection it found in memory, here
the one-task collection, which is not the empty collection. -/
theorem loadTasks_empty_string_keeps_memory :
    jsonParse [] = .error .syntaxError ∧
    loadTasks { emptyStorage with tasksItem := some [] } (tasksToJS [taskA]) =
      .ok (tasksToJS [taskA]) ∧
    loadTasks { emptyStorage with tasksItem := some [] } (tasksToJS [taskA]) ≠
      .ok (.arr []) := by
  refine ⟨rfl, rfl, ?_⟩
  intro h
  have h1 : loadTasks { emptyStorage with tasksItem := some [] } (tasksToJS [taskA]) =
      .ok (tasksToJS [taskA]) := rfl
  rw [h1] at h
  simp [tasksToJS] at h

/-- C2, amended: when the stored string does not parse as JSON, `loadTasks` ends
without raising; it leaves the empty collection if the string is not empty, and
the collection it found in memory if the string is empty. -/
theorem loadTasks_malformed (ls : LocalStorage) (mem : JVal) (s : JSString)
    (hs : ls.getItem = some s) (hmal : ∃ e, jsonParse s = .error e) :
    (s ≠ [] → loadTasks ls mem = .ok (.arr [])) ∧
    (s = [] → loadTasks ls mem = .ok mem) := by
  obtain ⟨e, he⟩ := hmal
  constructor
  · intro hne
    cases hc : s with
    | nil => exact absurd hc hne
    | cons c r =>
      rw [hc] at he hs
      simp [loadTasks, hs, strTruthy, loadTasksTry, he]
  · intro hnil
    rw [hnil] at hs
    simp [loadTasks, hs, strTruthy]

theorem loadTasks_malformed_witness :
    ({ emptyStorage with tasksItem := some (utf16 "\x7boops") } : LocalStorage).getItem =
      some (utf16 "\x7boops") ∧
    (∃ e, jsonParse (utf16 "\x7boops") = .error e) ∧
    loadTasks { emptyStorage with tasksItem := some (utf16 "\x7boops") } (tasksToJS [taskA]) =
      .ok (.arr []) :=
  ⟨rfl, ⟨.syntaxError, rfl⟩,
    (loadTasks_malformed { emptyStorage with tasksItem := some (utf16 "\x7boops") }
      (tasksToJS [taskA]) (utf16 "\x7boops") rfl ⟨.syntaxError, rfl⟩).1 (by decide)⟩

/-! ## Task store: auxiliary facts -/

theorem trim_eq_nil_of_blank (s : JSString) (h : ∀ c ∈ s, isWhiteSpace c = true) :
    trim s = [] := by
  have h1 : s.dropWhile isWhiteSpace = [] := List.dropWhile_eq_nil_iff.mpr h
  simp [trim, h1]

theorem saveTasks_tasks (st : AppState) : (saveTasks st).tasks = st.tasks := by
  unfold saveTasks
  split <;> rfl

theorem saveTasks_editingTaskId (st : AppState) :
    (saveTasks st).editingTaskId = st.editingTaskId := by
  unfold saveTasks
  split <;> rfl

theorem updateFirst_split (p : Task → Bool) (f : Task → Task) (pre : List Task) (t : Task)
    (post : List Task) (ht : p t = true) (hpre : ∀ u ∈ pre, p u = false) :
    updateFirst p f (pre ++ t :: post) = pre ++ f t :: post := by
  induction pre with
  | nil => simp [updateFirst, ht]
  | cons u pre ih =>
    have hu : p u = false := hpre u (List.mem_cons_self _ _)
    have hrest : ∀ v ∈ pre, p v = false := fun v hv => hpre v (List.mem_cons_of_mem _ hv)
    simp [updateFirst, hu, ih hrest]

theorem find?_isSome_of_split (p : Task → Bool) (pre : List Task) (t : Task) (post : List Task)
    (ht : p t = true) : ∃ u, (pre ++ t :: post).find? p = some u := by
  cases h : (pre ++ t :: post).find? p with
  | some u => exact ⟨u, rfl⟩
  | none =>
    have := List.find?_eq_none.mp h t (by simp)
    simp [ht] at this

theorem find?_none_of_no_id (taskId : Int) (ts : List Task) (h : ∀ u ∈ ts, u.id ≠ taskId) :
    ts.find? (fun t => t.id == taskId) = none := by
  apply List.find?_eq_none.mpr
  intro u hu
  simpa using h u hu

/-! ## Task store: adding, toggling, deleting, editing -/

/-- C3: when the text field is empty or holds only white space (whatever the date
field holds), `handleAddTask` returns the state it was given: the task collection
is unchanged, and so is the storage slot together with its count of `setItem`
calls, so nothing was written. -/
theorem handleAddTask_blank_unchanged (inputText dateValue : JSString) (now : Int)
    (nowISO : JSString) (st : AppState) (h : ∀ c ∈ inputText, isWhiteSpace c = true) :
    handleAddTask inputText dateValue now nowISO st = st := by
  simp [handleAddTask, trim_eq_nil_of_blank inputText h, strTruthy]

theorem handleAddTask_blank_unchanged_witness :
    (∀ c ∈ utf16 " \t ", isWhiteSpace c = true) ∧
    handleAddTask (utf16 " \t ") (utf16 "2024-01-15") 1704880800001
      (utf16 "2024-01-10T10:00:00.001Z") stateAB = stateAB :=
  ⟨List.all_eq_true.mp (by decide),
    handleAddTask_blank_unchanged _ _ _ _ _ (List.all_eq_true.mp (by decide))⟩

/-- C4: when the trimmed text is not empty, `handleAddTask` leaves the collection
`t :: L`, where `L` is the collection before and `t` has the trimmed text,
`completed = false`, `starred = false`, the content of the date field as its date
(`null` when the field is empty), and the clock readings as `id` and
`createdAt`. -/
theorem handleAddTask_prepends (inputText dateValue : JSString) (now : Int)
    (nowISO : JSString) (st : AppState) (h : trim inputText ≠ []) :
    (handleAddTask inputText dateValue now nowISO st).tasks =
      { id := now
        text := trim inputText
        completed := false
        starred := false
        date := if dateValue = [] then none else some dateValue
        createdAt := nowISO } :: st.tasks := by
  cases dateValue <;> simp [handleAddTask, h, saveTasks_tasks, strTruthy]

theorem handleAddTask_prepends_witness :
    trim (utf16 "  Pay rent ") ≠ [] ∧
    (handleAddTask (utf16 "  Pay rent ") [] 1704880800001
      (utf16 "2024-01-10T10:00:00.001Z") stateAB).tasks =
      { id := 1704880800001
        text := trim (utf16 "  Pay rent ")
        completed := false
        starred := false
        date := if ([] : JSString) = [] then none else some []
        createdAt := utf16 "2024-01-10T10:00:00.001Z" } :: stateAB.tasks :=
  ⟨by decide, handleAddTask_prepends _ _ _ _ _ (by decide)⟩

/-- C5: when the new text is empty or holds only white space, `saveEditTask`
changes nothing but the editing id, which becomes `null`, whether or not a task
has the given id: the collection is the one before the call, so the task with
the given id is found with the text it had. -/
theorem saveEditTask_blank_cancels (taskId : Int) (newText : JSString) (st : AppState)
    (h : ∀ c ∈ newText, isWhiteSpace c = true) :
    saveEditTask taskId newText st = { st with editingTaskId := none } ∧
    (saveEditTask taskId newText st).tasks = st.tasks ∧
    (saveEditTask taskId newText st).editingTaskId = none ∧
    (∀ t ∈ st.tasks, t.id = taskId → t ∈ (saveEditTask taskId newText st).tasks) := by
  have key : saveEditTask taskId newText st = { st with editingTaskId := none } := by
    unfold saveEditTask
    split <;> simp [trim_eq_nil_of_blank newText h, strTruthy, cancelEdit]
  refine ⟨key, ?_, ?_, ?_⟩
  · rw [key]
  · rw [key]
  · intro t ht _
    rw [key]
    exact ht

theorem saveEditTask_blank_cancels_witness :
    (∀ c ∈ utf16 "   ", isWhiteSpace c = true) ∧
    taskA ∈ stateAB.tasks ∧ taskA.id = 1704877200000 ∧
    stateAB.editingTaskId = some 1704877200000 ∧
    (saveEditTask 1704877200000 (utf16 "   ") stateAB).tasks = stateAB.tasks ∧
    (saveEditTask 1704877200000 (utf16 "   ") stateAB).editingTaskId = none :=
  ⟨List.all_eq_true.mp (by decide), by decide, by decide, by decide,
    (saveEditTask_blank_cancels 1704877200000 (utf16 "   ") stateAB
      (List.all_eq_true.mp (by decide))).2.1,
    (saveEditTask_blank_cancels 1704877200000 (utf16 "   ") stateAB
      (List.all_eq_true.mp (by decide))).2.2.1⟩

/-- C6: if the first task with the given id is `t`, standing between `pre` and
`post`, then `toggleTaskComplete` leaves `pre`, `t` with `completed` negated and
`post`, and `toggleTaskStar` leaves `pre`, `t` with `starred` negated and `post`:
no other field, no other task and no position changes. If no task has the id,
both return the state they were given. -/
theorem toggle_first_match (taskId : Int) (st : AppState) :
    (∀ pre t post, st.tasks = pre ++ t :: post → t.id = taskId →
      (∀ u ∈ pre, u.id ≠ taskId) →
      (toggleTaskComplete taskId st).tasks =
          pre ++ { t with completed := !t.completed } :: post ∧
        (toggleTaskStar taskId st).tasks =
          pre ++ { t with starred := !t.starred } :: post) ∧
    ((∀ u ∈ st.tasks, u.id ≠ taskId) →
      toggleTaskComplete taskId st = st ∧ toggleTaskStar taskId st = st) := by
  constructor
  · intro pre t post hsplit hid hpre
    have ht : (fun u : Task => u.id == taskId) t = true := by simp [hid]
    have hp : ∀ u ∈ pre, (fun u : Task => u.id == taskId) u = false := by
      intro u hu
      simpa using hpre u hu
    obtain ⟨u, hu⟩ := find?_isSome_of_split (fun u : Task => u.id == taskId) pre t post ht
    constructor
    · unfold toggleTaskComplete
      rw [hsplit, hu]
      simp only [saveTasks_tasks]
      exact updateFirst_split _ _ pre t post ht hp
    · unfold toggleTaskStar
      rw [hsplit, hu]
      simp only [saveTasks_tasks]
      exact updateFirst_split _ _ pre t post ht hp
  · intro hno
    have hnone := find?_none_of_no_id taskId st.tasks hno
    constructor
    · unfold toggleTaskComplete
      rw [hnone]
    · unfold toggleTaskStar
      rw [hnone]

theorem toggle_first_match_witness :
    stateAB.tasks = [taskB] ++ taskA :: [] ∧ taskA.id = 1704877200000 ∧
    (toggleTaskComplete 1704877200000 stateAB).tasks =
      [taskB] ++ { taskA with completed := !taskA.completed } :: [] ∧
    (toggleTaskStar 1704877200000 stateAB).tasks =
      [taskB] ++ { taskA with starred := !taskA.starred } :: [] ∧
    toggleTaskComplete 5 stateAB = stateAB ∧ toggleTaskStar 5 stateAB = stateAB :=
  ⟨rfl, rfl,
    ((toggle_first_match 1704877200000 stateAB).1 [taskB] taskA [] rfl rfl
      (fun u hu => by rw [List.mem_singleton.mp hu]; decide)).1,
    ((toggle_first_match 1704877200000 stateAB).1 [taskB] taskA [] rfl rfl
      (fun u hu => by rw [List.mem_singleton.mp hu]; decide)).2,
    (toggle_first_match 5 stateAB).2
      (fun u hu => (List.all_eq_true.mp
        (by decide : stateAB.tasks.all (fun u => decide (u.id ≠ 5)) = true) u hu |>
          of_decide_eq_true))⟩

/-- C7: after `deleteTask` no task has the given id; the tasks left are a
subsequence of the collection before (same records, same relative order), and
every task with another id occurs in it as many times as before. If no task has
the id, the collection is unchanged. -/
theorem deleteTask_removes_id (taskId : Int) (st : AppState) :
    (∀ t ∈ (deleteTask taskId st).tasks, t.id ≠ taskId) ∧
    (deleteTask taskId st).tasks.Sublist st.tasks ∧
    (∀ t : Task, t.id ≠ taskId →
      (deleteTask taskId st).tasks.count t = st.tasks.count t) ∧
    ((∀ t ∈ st.tasks, t.id ≠ taskId) → (deleteTask taskId st).tasks = st.tasks) := by
  have htasks : (deleteTask taskId st).tasks = st.tasks.filter (fun t => t.id != taskId) := by
    simp [deleteTask, saveTasks_tasks]
  rw [htasks]
  refine ⟨?_, List.filter_sublist _, ?_, ?_⟩
  · intro t ht
    simpa using (List.mem_filter.mp ht).2
  · intro t ht
    rw [List.count_filter]
    simpa using ht
  · intro h
    apply List.filter_eq_self.mpr
    intro t ht
    simpa using h t ht

theorem deleteTask_removes_id_witness :
    (deleteTask 1704877200000 stateAB).tasks = [taskB] ∧
    (deleteTask 1704877200000 stateAB).tasks.Sublist stateAB.tasks ∧
    (deleteTask 1704877200000 stateAB).tasks.count taskB = stateAB.tasks.count taskB ∧
    (deleteTask 5 stateAB).tasks = stateAB.tasks :=
  ⟨by decide, (deleteTask_removes_id 1704877200000 stateAB).2.1,
    (deleteTask_removes_id 1704877200000 stateAB).2.2.1 taskB (by decide),
    (deleteTask_removes_id 5 stateAB).2.2.2
      (fun u hu => (List.all_eq_true.mp
        (by decide : stateAB.tasks.all (fun u => decide (u.id ≠ 5)) = true) u hu |>
          of_decide_eq_true))⟩

/-! ## Search: properties -/

theorem includes_iff (s q : JSString) :
    includes s q = true ↔ ∃ before after : JSString, s = before ++ q ++ after := by
  unfold includes
  rw [List.any_eq_true]
  constructor
  · rintro ⟨t, ht, hq⟩
    obtain ⟨before, hb⟩ := (List.mem_tails t s).mp ht
    obtain ⟨after, ha⟩ := List.isPrefixOf_iff_prefix.mp hq
    exact ⟨before, after, by rw [← hb, ← ha, List.append_assoc]⟩
  · rintro ⟨before, after, h⟩
    refine ⟨q ++ after, (List.mem_tails _ _).mpr ⟨before, by rw [h, List.append_assoc]⟩, ?_⟩
    exact List.isPrefixOf_iff_prefix.mpr ⟨after, rfl⟩

/-- What `filterTasks` computes, for any lower-casing function: a subsequence of
`tasks`; for a non-empty query, the tasks whose lower-cased text includes the
lower-cased query, each as often as it occurs; the same result for two non-empty
queries with the same lower-cased form; `tasks` itself for the empty query. -/
theorem filterTasks_lower_includes (toLowerCase : JSString → JSString) (st : AppState) :
    (filterTasks toLowerCase st).Sublist st.tasks ∧
    (st.searchQuery ≠ [] →
      (∀ t ∈ filterTasks toLowerCase st,
        ∃ before after : JSString,
          toLowerCase t.text = before ++ toLowerCase st.searchQuery ++ after) ∧
      (∀ t : Task,
        (∃ before after : JSString,
          toLowerCase t.text = before ++ toLowerCase st.searchQuery ++ after) →
        (filterTasks toLowerCase st).count t = st.tasks.count t)) ∧
    (∀ q : JSString, q ≠ [] → st.searchQuery ≠ [] →
      toLowerCase q = toLowerCase st.searchQuery →
      filterTasks toLowerCase { st with searchQuery := q } = filterTasks toLowerCase st) ∧
    (st.searchQuery = [] → filterTasks toLowerCase st = st.tasks) := by
  refine ⟨?_, ?_, ?_, ?_⟩
  · unfold filterTasks
    split
    · exact List.Sublist.refl _
    · exact List.filter_sublist _
  · intro hq
    have hf : filterTasks toLowerCase st = st.tasks.filter
        (fun task => includes (toLowerCase task.text) (toLowerCase st.searchQuery)) := by
      cases hs : st.searchQuery with
      | nil => exact absurd hs hq
      | cons c r => simp [filterTasks, hs, strTruthy]
    rw [hf]
    constructor
    · intro t ht
      exact (includes_iff _ _).mp (List.mem_filter.mp ht).2
    · intro t ht
      rw [List.count_filter]
      exact (includes_iff _ _).mpr ht
  · intro q hq hs heq
    cases hq1 : q with
    | nil => exact absurd hq1 hq
    | cons c r =>
      cases hs1 : st.searchQuery with
      | nil => exact absurd hs1 hs
      | cons d r1 =>
        rw [hq1, hs1] at heq
        simp [filterTasks, hs1, strTruthy, heq]
  · intro hs
    simp [filterTasks, hs, strTruthy]

/-- C8: the text of `taskSigma`, the Greek capitals omicron delta omicron sigma
alpha, contains the query, its first four letters, as it stands. Lower-casing
turns the sigma of the text into the medial small sigma and the sigma that ends
the query into the final small sigma, so `filterTasks` returns no task. The same
query written with a medial small sigma does return the task: the result depends
on the letter-casing of the query. -/
theorem filterTasks_final_sigma :
    includes taskSigma.text stateSigma.searchQuery = true ∧
    greekLatinLower taskSigma.text = utf16 "οδοσα" ∧
    greekLatinLower stateSigma.searchQuery = utf16 "οδος" ∧
    filterTasks greekLatinLower stateSigma = [] ∧
    greekLatinLower (utf16 "οδοσ") = utf16 "οδοσ" ∧
    filterTasks greekLatinLower { stateSigma with searchQuery := utf16 "οδοσ" } =
      [taskSigma] := by
  decide

/-- The scenario of the specification: the query `GRO`, in any letter-casing,
against the texts `Buy groceries` and `Call mom` returns the first task only. -/
theorem filterTasks_scenario :
    filterTasks asciiLower { stateAB with searchQuery := utf16 "GRO" } = [taskA] ∧
    filterTasks asciiLower { stateAB with searchQuery := utf16 "gro" } = [taskA] ∧
    filterTasks asciiLower { stateAB with searchQuery := utf16 "Gro" } = [taskA] := by
  decide

/-! ## Sorting in `groupTasksByDate`: properties -/

theorem orderedInsert_perm {α : Type} (cmp : α → α → Option Int) (a : α) (l : List α) :
    (orderedInsert cmp a l).Perm (a :: l) := by
  induction l with
  | nil => exact List.Perm.refl _
  | cons b l ih =>
    unfold orderedInsert
    split
    · exact List.Perm.refl _
    · exact ((List.Perm.cons b ih).trans (List.Perm.swap a b l))

theorem jsSort_perm {α : Type} (cmp : α → α → Option Int) (l : List α) :
    (jsSort cmp l).Perm l := by
  induction l with
  | nil => exact List.Perm.refl _
  | cons a l ih =>
    exact (orderedInsert_perm cmp a (jsSort cmp l)).trans (List.Perm.cons a ih)

theorem orderedInsert_pairwise {α : Type} (cmp : α → α → Option Int) (R : α → α → Prop)
    (a : α) (l : List α)
    (htrans : ∀ b ∈ l, ∀ c ∈ l, R a b → R b c → R a c)
    (h1 : ∀ b ∈ l, sortKeeps cmp a b = true → R a b)
    (h2 : ∀ b ∈ l, sortKeeps cmp a b = false → R b a)
    (hl : l.Pairwise R) : (orderedInsert cmp a l).Pairwise R := by
  induction l with
  | nil => simp [orderedInsert]
  | cons b l ih =>
    have hb : ∀ x ∈ l, R b x := (List.pairwise_cons.mp hl).1
    have hl1 : l.Pairwise R := (List.pairwise_cons.mp hl).2
    unfold orderedInsert
    cases hk : sortKeeps cmp a b with
    | true =>
      simp only [if_true]
      refine List.pairwise_cons.mpr ⟨?_, hl⟩
      intro x hx
      have hab : R a b := h1 b (List.mem_cons_self _ _) hk
      rcases List.mem_cons.mp hx with rfl | hx1
      · exact hab
      · exact htrans b (List.mem_cons_self _ _) x (List.mem_cons_of_mem _ hx1) hab (hb x hx1)
    | false =>
      simp only [Bool.false_eq_true, if_false]
      refine List.pairwise_cons.mpr ⟨?_, ?_⟩
      · intro x hx
        have hx1 : x ∈ a :: l := (orderedInsert_perm cmp a l).subset hx
        rcases List.mem_cons.mp hx1 with rfl | hx2
        · exact h2 b (List.mem_cons_self _ _) hk
        · exact hb x hx2
      · exact ih
          (fun x hx c hc => htrans x (List.mem_cons_of_mem _ hx) c (List.mem_cons_of_mem _ hc))
          (fun x hx => h1 x (List.mem_cons_of_mem _ hx))
          (fun x hx => h2 x (List.mem_cons_of_mem _ hx)) hl1

theorem jsSort_pairwise {α : Type} (cmp : α → α → Option Int) (R : α → α → Prop)
    (l : List α)
    (htrans : ∀ a ∈ l, ∀ b ∈ l, ∀ c ∈ l, R a b → R b c → R a c)
    (h1 : ∀ a ∈ l, ∀ b ∈ l, sortKeeps cmp a b = true → R a b)
    (h2 : ∀ a ∈ l, ∀ b ∈ l, sortKeeps cmp a b = false → R b a) :
    (jsSort cmp l).Pairwise R := by
  induction l with
  | nil => simp [jsSort]
  | cons a l ih =>
    have hsub : ∀ x ∈ jsSort cmp l, x ∈ a :: l :=
      fun x hx => List.mem_cons_of_mem _ ((jsSort_perm cmp l).subset hx)
    have ha : a ∈ a :: l := List.mem_cons_self _ _
    unfold jsSort
    apply orderedInsert_pairwise
    · exact fun b hb c hc => htrans a ha b (hsub b hb) c (hsub c hc)
    · exact fun b hb => h1 a ha b (hsub b hb)
    · exact fun b hb => h2 a ha b (hsub b hb)
    · exact ih
        (fun x hx y hy z hz => htrans x (List.mem_cons_of_mem _ hx) y (List.mem_cons_of_mem _ hy)
          z (List.mem_cons_of_mem _ hz))
        (fun x hx y hy => h1 x (List.mem_cons_of_mem _ hx) y (List.mem_cons_of_mem _ hy))
        (fun x hx y hy => h2 x (List.mem_cons_of_mem _ hx) y (List.mem_cons_of_mem _ hy))

theorem groupDateLE_trans (dateParse : JSString → Option Int) (a b c : Task)
    (hab : GroupDateLE dateParse a b) (hbc : GroupDateLE dateParse b c) :
    GroupDateLE dateParse a c := by
  unfold GroupDateLE at *
  rcases hab with h | ⟨h, h'⟩ <;> rcases hbc with k | ⟨k, k'⟩
  · exact Or.inl (by omega)
  · exact Or.inl (by omega)
  · exact Or.inl (by omega)
  · exact Or.inr ⟨by omega, by omega⟩

theorem groupDateLE_of_keeps (dateParse : JSString → Option Int) (a b : Task)
    (ha : optTruthy a.date = true → (newDate dateParse a.date).isSome = true)
    (hb : optTruthy b.date = true → (newDate dateParse b.date).isSome = true)
    (h : sortKeeps (compareTasks dateParse) a b = true) : GroupDateLE dateParse a b := by
  unfold GroupDateLE groupRank dateKey
  unfold sortKeeps compareTasks at h
  cases hsa : a.starred <;> cases hsb : b.starred <;> cases hda : optTruthy a.date <;>
    cases hdb : optTruthy b.date <;> cases hx : newDate dateParse a.date <;>
    cases hy : newDate dateParse b.date <;>
    simp [hsa, hsb, hda, hdb, hx, hy, numSub] at h ha hb ⊢ <;> omega

theorem groupDateLE_of_not_keeps (dateParse : JSString → Option Int) (a b : Task)
    (ha : optTruthy a.date = true → (newDate dateParse a.date).isSome = true)
    (hb : optTruthy b.date = true → (newDate dateParse b.date).isSome = true)
    (h : sortKeeps (compareTasks dateParse) a b = false) : GroupDateLE dateParse b a := by
  unfold GroupDateLE groupRank dateKey
  unfold sortKeeps compareTasks at h
  cases hsa : a.starred <;> cases hsb : b.starred <;> cases hda : optTruthy a.date <;>
    cases hdb : optTruthy b.date <;> cases hx : newDate dateParse a.date <;>
    cases hy : newDate dateParse b.date <;>
    simp [hsa, hsb, hda, hdb, hx, hy, numSub] at h ha hb ⊢ <;> omega

theorem sortOrdered_of_groupDateLE (dateParse : JSString → Option Int) (a b : Task)
    (h : GroupDateLE dateParse a b) : SortOrdered dateParse a b := by
  unfold GroupDateLE groupRank dateKey at h
  unfold SortOrdered
  cases hsa : a.starred <;> cases hsb : b.starred <;> cases hda : optTruthy a.date <;>
    cases hdb : optTruthy b.date <;> cases hx : newDate dateParse a.date <;>
    cases hy : newDate dateParse b.date <;>
    simp [hsa, hsb, hda, hdb, hx, hy] at h ⊢ <;> omega

/-- C9: when every date that counts as present is a valid date, the constant
`sortedTasks` of `groupTasksByDate` is a permutation of the input in which, for
each task and each task placed after it: the later one is starred only if the
earlier one is; with equal `starred`, the later one is dated only if the earlier
one is, and if both are dated the earlier one's date is not after the later
one's. -/
theorem sortedTasks_perm_ordered (dateParse : JSString → Option Int) (tasks : List Task)
    (hwf : DatesWellFormed dateParse tasks) :
    (sortedTasks dateParse tasks).Perm tasks ∧
    (sortedTasks dateParse tasks).Pairwise (SortOrdered dateParse) := by
  refine ⟨jsSort_perm _ _, ?_⟩
  have hp : (jsSort (compareTasks dateParse) tasks).Pairwise (GroupDateLE dateParse) := by
    apply jsSort_pairwise
    · exact fun a _ b _ c _ => groupDateLE_trans dateParse a b c
    · exact fun a ha b hb => groupDateLE_of_keeps dateParse a b (hwf a ha) (hwf b hb)
    · exact fun a ha b hb => groupDateLE_of_not_keeps dateParse a b (hwf a ha) (hwf b hb)
  exact hp.imp (fun {a b} h => sortOrdered_of_groupDateLE dateParse a b h)

theorem datesWellFormed_examples : DatesWellFormed isoDateParse [taskA, taskB, taskC] := by
  intro t ht
  simp only [List.mem_cons, List.mem_singleton, List.not_mem_nil, or_false] at ht
  rcases ht with rfl | rfl | rfl <;> decide

theorem sortedTasks_perm_ordered_witness :
    DatesWellFormed isoDateParse [taskA, taskB, taskC] ∧
    (sortedTasks isoDateParse [taskA, taskB, taskC]).Perm [taskA, taskB, taskC] ∧
    (sortedTasks isoDateParse [taskA, taskB, taskC]).Pairwise (SortOrdered isoDateParse) :=
  ⟨datesWellFormed_examples,
    sortedTasks_perm_ordered isoDateParse [taskA, taskB, taskC] datesWellFormed_examples⟩

theorem groupTieLE_trans (dateParse : JSString → Option Int) (a b c : Task)
    (hab : GroupTieLE dateParse a b) (hbc : GroupTieLE dateParse b c) :
    GroupTieLE dateParse a c := by
  unfold GroupTieLE at *
  rcases hab with h | ⟨h, h'⟩ <;> rcases hbc with k | ⟨k, k'⟩
  · exact Or.inl (by omega)
  · exact Or.inl (by omega)
  · exact Or.inl (by omega)
  · exact Or.inr ⟨by omega, by omega⟩

theorem groupTieLE_of_keeps (dateParse : JSString → Option Int) (a b : Task)
    (ha : optTruthy a.date = true → (newDate dateParse a.date).isSome = true)
    (hb : optTruthy b.date = true → (newDate dateParse b.date).isSome = true)
    (ha' : optTruthy a.date = false → (newDate dateParse (some a.createdAt)).isSome = true)
    (hb' : optTruthy b.date = false → (newDate dateParse (some b.createdAt)).isSome = true)
    (h : sortKeeps (compareTasks dateParse) a b = true) : GroupTieLE dateParse a b := by
  unfold GroupTieLE groupRank tieKey
  unfold sortKeeps compareTasks at h
  cases hsa : a.starred <;> cases hsb : b.starred <;> cases hda : optTruthy a.date <;>
    cases hdb : optTruthy b.date <;> cases hx : newDate dateParse a.date <;>
    cases hy : newDate dateParse b.date <;>
    cases hu : newDate dateParse (some a.createdAt) <;>
    cases hv : newDate dateParse (some b.createdAt) <;>
    simp [hsa, hsb, hda, hdb, hx, hy, hu, hv, numSub] at h ha hb ha' hb' ⊢ <;> omega

theorem groupTieLE_of_not_keeps (dateParse : JSString → Option Int) (a b : Task)
    (ha : optTruthy a.date = true → (newDate dateParse a.date).isSome = true)
    (hb : optTruthy b.date = true → (newDate dateParse b.date).isSome = true)
    (ha' : optTruthy a.date = false → (newDate dateParse (some a.createdAt)).isSome = true)
    (hb' : optTruthy b.date = false → (newDate dateParse (some b.createdAt)).isSome = true)
    (h : sortKeeps (compareTasks dateParse) a b = false) : GroupTieLE dateParse b a := by
  unfold GroupTieLE groupRank tieKey
  unfold sortKeeps compareTasks at h
  cases hsa : a.starred <;> cases hsb : b.starred <;> cases hda : optTruthy a.date <;>
    cases hdb : optTruthy b.date <;> cases hx : newDate dateParse a.date <;>
    cases hy : newDate dateParse b.date <;>
    cases hu : newDate dateParse (some a.createdAt) <;>
    cases hv : newDate dateParse (some b.createdAt) <;>
    simp [hsa, hsb, hda, hdb, hx, hy, hu, hv, numSub] at h ha hb ha' hb' ⊢ <;> omega

/-- What the sort does achieve for ties among dateless tasks: when the comparator
never returns `NaN`, of two dateless tasks with the same `starred` value the one
placed first has the later or the same `createdAt`. -/
theorem sortedTasks_dateless_newest_first (dateParse : JSString → Option Int)
    (tasks : List Task) (hwf : TimesWellFormed dateParse tasks) :
    (sortedTasks dateParse tasks).Pairwise (fun a b =>
      a.starred = b.starred → optTruthy a.date = false → optTruthy b.date = false →
      ∀ x y : Int, dateParse a.createdAt = some x → dateParse b.createdAt = some y → y ≤ x) := by
  have hp : (jsSort (compareTasks dateParse) tasks).Pairwise (GroupTieLE dateParse) := by
    apply jsSort_pairwise
    · exact fun a _ b _ c _ => groupTieLE_trans dateParse a b c
    · exact fun a ha b hb => groupTieLE_of_keeps dateParse a b (hwf a ha).1 (hwf b hb).1
        (hwf a ha).2 (hwf b hb).2
    · exact fun a ha b hb => groupTieLE_of_not_keeps dateParse a b (hwf a ha).1 (hwf b hb).1
        (hwf a ha).2 (hwf b hb).2
  refine hp.imp ?_
  intro a b h hs hda hdb x y hx hy
  unfold GroupTieLE groupRank tieKey at h
  simp only [newDate, hx, hy, hda, hdb, hs, Option.getD_some] at h
  rcases h with h | ⟨_, h⟩
  · simp at h
  · simpa using h

theorem compareTasks_equal_dates (dateParse : JSString → Option Int) (a b : Task) (x : Int)
    (hs : a.starred = b.starred) (hd : a.date = b.date) (ht : optTruthy a.date = true)
    (hx : newDate dateParse a.date = some x) :
    compareTasks dateParse a b = some 0 := by
  have hbt : optTruthy b.date = true := hd ▸ ht
  have hbx : newDate dateParse b.date = some x := hd ▸ hx
  unfold compareTasks
  cases hsb : b.starred <;> simp [hs, hsb, ht, hbt, hx, hbx, numSub]

/-- C10: `taskA` and `taskC` have the same `starred` value and the same date, and
`taskC` was created ninety minutes after `taskA`; the comparator returns `0` for them
without looking at `createdAt`, and the sort leaves `taskA`, the one created
earlier, in front of `taskC` when the input has them in that order. -/
theorem sortedTasks_equal_dates_input_order :
    taskA.starred = taskC.starred ∧ taskA.date = taskC.date ∧
    isoDateParse taskA.createdAt = some 1704877200000 ∧
    isoDateParse taskC.createdAt = some 1704882600000 ∧
    compareTasks isoDateParse taskA taskC = some 0 ∧
    sortedTasks isoDateParse [taskA, taskC] = [taskA, taskC] := by
  decide

/-! ## Buckets of `groupTasksByDate`: properties -/

theorem groupStep_eq (dateParse : JSString → Option Int) (localTZA : Int → Bool → Int)
    (now : Int) (g : Grouped) (task : Task) :
    groupStep dateParse localTZA (setHoursZero localTZA (some now))
      (setDateNextDay localTZA (setHoursZero localTZA (some now))) g task =
    { today := g.today ++ (if bucketOf dateParse localTZA now task = .today then [task] else [])
      tomorrow := g.tomorrow ++
        (if bucketOf dateParse localTZA now task = .tomorrow then [task] else [])
      later := g.later ++
        (if bucketOf dateParse localTZA now task = .later then [task] else []) } := by
  unfold groupStep bucketOf
  cases g
  split
  · simp
  · simp only []
    split
    · simp
    · split <;> simp

theorem foldl_groupStep (dateParse : JSString → Option Int) (localTZA : Int → Bool → Int)
    (now : Int) (l : List Task) (g : Grouped) :
    l.foldl (groupStep dateParse localTZA (setHoursZero localTZA (some now))
      (setDateNextDay localTZA (setHoursZero localTZA (some now)))) g =
    { today := g.today ++
        l.filter (fun t => decide (bucketOf dateParse localTZA now t = .today))
      tomorrow := g.tomorrow ++
        l.filter (fun t => decide (bucketOf dateParse localTZA now t = .tomorrow))
      later := g.later ++
        l.filter (fun t => decide (bucketOf dateParse localTZA now t = .later)) } := by
  induction l generalizing g with
  | nil => simp
  | cons t l ih =>
    rw [List.foldl_cons, groupStep_eq, ih]
    cases hb : bucketOf dateParse localTZA now t <;> simp [List.filter_cons, hb]

theorem groupTasksByDate_eq_filter (dateParse : JSString → Option Int)
    (localTZA : Int → Bool → Int) (now : Int) (tasks : List Task) :
    groupTasksByDate dateParse localTZA now tasks =
    { today := (sortedTasks dateParse tasks).filter
        (fun t => decide (bucketOf dateParse localTZA now t = .today))
      tomorrow := (sortedTasks dateParse tasks).filter
        (fun t => decide (bucketOf dateParse localTZA now t = .tomorrow))
      later := (sortedTasks dateParse tasks).filter
        (fun t => decide (bucketOf dateParse localTZA now t = .later)) } := by
  unfold groupTasksByDate
  simp only []
  rw [foldl_groupStep]
  simp

theorem bucket_filters_perm (f : Task → Bucket) (l : List Task) :
    (l.filter (fun t => decide (f t = .today)) ++
      (l.filter (fun t => decide (f t = .tomorrow)) ++
        l.filter (fun t => decide (f t = .later)))).Perm l := by
  induction l with
  | nil => simp
  | cons t l ih =>
    cases hb : f t
    · simpa [List.filter_cons, hb] using ih
    · simp only [List.filter_cons, hb, reduceCtorEq, decide_False, decide_True,
        Bool.false_eq_true, if_false, if_true]
      exact (List.perm_middle).trans (List.Perm.cons t ih)
    · simp only [List.filter_cons, hb, reduceCtorEq, decide_False, decide_True,
        Bool.false_eq_true, if_false, if_true]
      rw [← List.append_assoc]
      exact (List.perm_middle).trans (List.Perm.cons t (by rw [List.append_assoc]; exact ih))

/-- C12: the buckets `today`, `tomorrow` and `later` returned by
`groupTasksByDate` put together are a permutation of the input, so each input
task stands in the buckets as often as in the input and no other task does; no
task stands in two buckets; and each bucket is a subsequence of the sorted
sequence, so it keeps that relative order. -/
theorem groupTasksByDate_partition (dateParse : JSString → Option Int)
    (localTZA : Int → Bool → Int) (now : Int) (tasks : List Task) :
    ((groupTasksByDate dateParse localTZA now tasks).today ++
      ((groupTasksByDate dateParse localTZA now tasks).tomorrow ++
        (groupTasksByDate dateParse localTZA now tasks).later)).Perm tasks ∧
    (∀ t : Task,
      (groupTasksByDate dateParse localTZA now tasks).today.count t +
        (groupTasksByDate dateParse localTZA now tasks).tomorrow.count t +
        (groupTasksByDate dateParse localTZA now tasks).later.count t = tasks.count t) ∧
    (∀ t : Task,
      ¬ (t ∈ (groupTasksByDate dateParse localTZA now tasks).today ∧
          t ∈ (groupTasksByDate dateParse localTZA now tasks).tomorrow) ∧
      ¬ (t ∈ (groupTasksByDate dateParse localTZA now tasks).today ∧
          t ∈ (groupTasksByDate dateParse localTZA now tasks).later) ∧
      ¬ (t ∈ (groupTasksByDate dateParse localTZA now tasks).tomorrow ∧
          t ∈ (groupTasksByDate dateParse localTZA now tasks).later)) ∧
    (groupTasksByDate dateParse localTZA now tasks).today.Sublist
      (sortedTasks dateParse tasks) ∧
    (groupTasksByDate dateParse localTZA now tasks).tomorrow.Sublist
      (sortedTasks dateParse tasks) ∧
    (groupTasksByDate dateParse localTZA now tasks).later.Sublist
      (sortedTasks dateParse tasks) := by
  have hperm : ((groupTasksByDate dateParse localTZA now tasks).today ++
      ((groupTasksByDate dateParse localTZA now tasks).tomorrow ++
        (groupTasksByDate dateParse localTZA now tasks).later)).Perm tasks := by
    rw [groupTasksByDate_eq_filter]
    exact (bucket_filters_perm _ _).trans (jsSort_perm _ _)
  refine ⟨hperm, ?_, ?_, ?_, ?_, ?_⟩
  · intro t
    have := hperm.count_eq t
    simp only [List.count_append] at this
    omega
  · intro t
    rw [groupTasksByDate_eq_filter]
    simp only [List.mem_filter, decide_eq_true_eq]
    refine ⟨?_, ?_, ?_⟩
    · rintro ⟨⟨_, h1⟩, ⟨_, h2⟩⟩
      rw [h1] at h2
      cases h2
    · rintro ⟨⟨_, h1⟩, ⟨_, h2⟩⟩
      rw [h1] at h2
      cases h2
    · rintro ⟨⟨_, h1⟩, ⟨_, h2⟩⟩
      rw [h1] at h2
      cases h2
  · rw [groupTasksByDate_eq_filter]
    exact List.filter_sublist _
  · rw [groupTasksByDate_eq_filter]
    exact List.filter_sublist _
  · rw [groupTasksByDate_eq_filter]
    exact List.filter_sublist _

theorem groupTasksByDate_partition_witness :
    groupTasksByDate isoDateParse centralEuropean mondayNoonEastern [taskA, taskD, taskB] =
      { today := [taskA], tomorrow := [taskD], later := [taskB] } ∧
    sortedTasks isoDateParse [taskA, taskD, taskB] = [taskB, taskA, taskD] ∧
    ((groupTasksByDate isoDateParse centralEuropean mondayNoonEastern
        [taskA, taskD, taskB]).today ++
      ((groupTasksByDate isoDateParse centralEuropean mondayNoonEastern
          [taskA, taskD, taskB]).tomorrow ++
        (groupTasksByDate isoDateParse centralEuropean mondayNoonEastern
          [taskA, taskD, taskB]).later)).Perm [taskA, taskD, taskB] :=
  ⟨by decide, by decide,
    (groupTasksByDate_partition isoDateParse centralEuropean mondayNoonEastern
      [taskA, taskD, taskB]).1⟩

/-! ## Buckets in a time zone with a constant offset -/

theorem setHoursZero_fixedZone (o t : Int)
    (ht : -8639999827200000 ≤ t ∧ t ≤ 8639999827200000) :
    setHoursZero (fixedZone o) (some t) =
      some (Int.ediv (t + o) msPerDay * msPerDay - o) := by
  have hdiv : Int.ediv (t + o) msPerDay = (t + o) / 86400000 := rfl
  simp only [setHoursZero, fixedZone, localTime, utcTime, timeClip, hdiv]
  simp only [msPerDay]
  rw [if_pos (by omega)]

theorem setDateNextDay_fixedZone (o t : Int)
    (ht : -8639999827200000 ≤ t ∧ t ≤ 8639999827200000) :
    setDateNextDay (fixedZone o) (some (Int.ediv (t + o) msPerDay * msPerDay - o)) =
      some ((Int.ediv (t + o) msPerDay + 1) * msPerDay - o) := by
  have hdiv : ∀ x : Int, Int.ediv x msPerDay = x / 86400000 := fun _ => rfl
  have hmod : ∀ x : Int, Int.emod x msPerDay = x % 86400000 := fun _ => rfl
  simp only [setDateNextDay, fixedZone, localTime, utcTime, timeClip, hdiv, hmod]
  simp only [msPerDay]
  have h1 : ((t + o) / 86400000 * 86400000 - o + o) / 86400000 = (t + o) / 86400000 := by
    omega
  have h2 : ((t + o) / 86400000 * 86400000 - o + o) % 86400000 = 0 := by omega
  rw [h1, h2, if_pos (by omega)]
  simp

/-- In a time zone with a constant offset `o`, a dated task whose date parses to
midnight UTC of day `n` is pushed onto `today` exactly when `n` shifted by the
whole days of the offset (`0` from UTC eastwards, `-1` west of it) is the local
day of the evaluation moment, and onto `tomorrow` exactly when it is the day
after. -/
theorem bucketOf_fixedZone (dateParse : JSString → Option Int) (o now n : Int) (task : Task)
    (hd : optTruthy task.date = true)
    (hp : newDate dateParse task.date = some (n * msPerDay))
    (hnow : -8639999827200000 ≤ now ∧ now ≤ 8639999827200000)
    (hn : -8639999827200000 ≤ n * msPerDay ∧ n * msPerDay ≤ 8639999827200000) :
    (bucketOf dateParse (fixedZone o) now task = .today ↔
      n + Int.ediv o msPerDay = localDay (fixedZone o) now) ∧
    (bucketOf dateParse (fixedZone o) now task = .tomorrow ↔
      n + Int.ediv o msPerDay = localDay (fixedZone o) now + 1) := by
  have hdiv : ∀ x : Int, Int.ediv x msPerDay = x / 86400000 := fun _ => rfl
  unfold bucketOf
  rw [hd, hp, setHoursZero_fixedZone o now hnow, setHoursZero_fixedZone o _ hn,
    setDateNextDay_fixedZone o now hnow]
  simp only [Bool.not_true, Bool.false_eq_true, if_false, numStrictEq, decide_eq_true_eq,
    localDay, localTime, fixedZone, hdiv]
  simp only [msPerDay] at hn ⊢
  constructor
  · constructor
    · intro h
      split at h
      · omega
      · split at h <;> cases h
    · intro h
      rw [if_pos (by omega)]
  · constructor
    · intro h
      split at h
      · cases h
      · split at h
        · omega
        · cases h
    · intro h
      rw [if_neg (by omega), if_pos (by omega)]

/-- From UTC eastwards the buckets are the ones of the local calendar: `today`
for a task dated the local day of the evaluation moment, `tomorrow` for a task
dated the day after. -/
theorem bucketOf_east_of_utc (dateParse : JSString → Option Int) (o now n : Int) (task : Task)
    (hd : optTruthy task.date = true)
    (hp : newDate dateParse task.date = some (n * msPerDay))
    (ho : 0 ≤ o ∧ o < msPerDay)
    (hnow : -8639999827200000 ≤ now ∧ now ≤ 8639999827200000)
    (hn : -8639999827200000 ≤ n * msPerDay ∧ n * msPerDay ≤ 8639999827200000) :
    (bucketOf dateParse (fixedZone o) now task = .today ↔
      n = localDay (fixedZone o) now) ∧
    (bucketOf dateParse (fixedZone o) now task = .tomorrow ↔
      n = localDay (fixedZone o) now + 1) := by
  have h := bucketOf_fixedZone dateParse o now n task hd hp hnow hn
  have hz : Int.ediv o msPerDay = 0 := by
    have hdiv : Int.ediv o msPerDay = o / 86400000 := rfl
    simp only [msPerDay] at ho
    rw [hdiv]
    omega
  rw [hz, Int.add_zero] at h
  exact h

/-- West of UTC the buckets are one day off: `today` holds the tasks dated the
day after the local day of the evaluation moment, `tomorrow` those dated two
days after it. -/
theorem bucketOf_west_of_utc (dateParse : JSString → Option Int) (o now n : Int) (task : Task)
    (hd : optTruthy task.date = true)
    (hp : newDate dateParse task.date = some (n * msPerDay))
    (ho : -msPerDay < o ∧ o < 0)
    (hnow : -8639999827200000 ≤ now ∧ now ≤ 8639999827200000)
    (hn : -8639999827200000 ≤ n * msPerDay ∧ n * msPerDay ≤ 8639999827200000) :
    (bucketOf dateParse (fixedZone o) now task = .today ↔
      n = localDay (fixedZone o) now + 1) ∧
    (bucketOf dateParse (fixedZone o) now task = .tomorrow ↔
      n = localDay (fixedZone o) now + 2) := by
  have h := bucketOf_fixedZone dateParse o now n task hd hp hnow hn
  have hz : Int.ediv o msPerDay = -1 := by
    have hdiv : Int.ediv o msPerDay = o / 86400000 := rfl
    simp only [msPerDay] at ho
    rw [hdiv]
    omega
  rw [hz] at h
  constructor
  · rw [h.1]
    constructor <;> intro h1 <;> omega
  · rw [h.2]
    constructor <;> intro h1 <;> omega

theorem bucketOf_dateless (dateParse : JSString → Option Int) (localTZA : Int → Bool → Int)
    (now : Int) (task : Task) (h : optTruthy task.date = false) :
    bucketOf dateParse localTZA now task = .later := by
  simp [bucketOf, h]

theorem bucketOf_invalid_date (dateParse : JSString → Option Int)
    (localTZA : Int → Bool → Int) (now : Int) (task : Task)
    (h : newDate dateParse task.date = none) :
    bucketOf dateParse localTZA now task = .later := by
  simp [bucketOf, h, setHoursZero, numStrictEq]

theorem bucketOf_same_date (dateParse : JSString → Option Int) (localTZA : Int → Bool → Int)
    (now : Int) (a b : Task) (h : a.date = b.date) :
    bucketOf dateParse localTZA now a = bucketOf dateParse localTZA now b := by
  unfold bucketOf
  rw [h]

theorem bucketOf_same_day (dateParse : JSString → Option Int) (o now1 now2 : Int) (task : Task)
    (h : localDay (fixedZone o) now1 = localDay (fixedZone o) now2) :
    bucketOf dateParse (fixedZone o) now1 task = bucketOf dateParse (fixedZone o) now2 task := by
  have hs : setHoursZero (fixedZone o) (some now1) = setHoursZero (fixedZone o) (some now2) := by
    simp only [localDay] at h
    simp only [setHoursZero, h]
  unfold bucketOf
  rw [hs]

theorem mem_groupTasksByDate (dateParse : JSString → Option Int)
    (localTZA : Int → Bool → Int) (now : Int) (tasks : List Task) (t : Task) :
    (t ∈ (groupTasksByDate dateParse localTZA now tasks).today ↔
      t ∈ tasks ∧ bucketOf dateParse localTZA now t = .today) ∧
    (t ∈ (groupTasksByDate dateParse localTZA now tasks).tomorrow ↔
      t ∈ tasks ∧ bucketOf dateParse localTZA now t = .tomorrow) ∧
    (t ∈ (groupTasksByDate dateParse localTZA now tasks).later ↔
      t ∈ tasks ∧ bucketOf dateParse localTZA now t = .later) := by
  have hmem : t ∈ sortedTasks dateParse tasks ↔ t ∈ tasks := (jsSort_perm _ _).mem_iff
  rw [groupTasksByDate_eq_filter]
  simp only [List.mem_filter, decide_eq_true_eq, hmem, and_self]

/-- C11: in Eastern Standard Time at noon of 15 January 2024 the local calendar
day is 15 January (day 19737), the date of `taskA`; `taskD` is dated 16 January,
the following day. `groupTasksByDate` puts `taskD` into `today`, nothing into
`tomorrow` and `taskA` into `later`. -/
theorem groupTasksByDate_west_of_utc :
    localDay easternStandard mondayNoonEastern = 19737 ∧
    newDate isoDateParse taskA.date = some (19737 * msPerDay) ∧
    newDate isoDateParse taskD.date = some (19738 * msPerDay) ∧
    groupTasksByDate isoDateParse easternStandard mondayNoonEastern [taskA, taskD] =
      { today := [taskD], tomorrow := [], later := [taskA] } := by
  decide

/-! ## Sequences of operations: texts stay trimmed -/

theorem trim_textTrimmed (s : JSString) (h : trim s ≠ []) : TextTrimmed (trim s) := by
  have hdef : trim s = (s.dropWhile isWhiteSpace).rdropWhile isWhiteSpace := rfl
  refine ⟨h, ?_, ?_⟩
  · intro c hc
    obtain ⟨r, hr⟩ : ∃ r, trim s = c :: r := by
      cases ht : trim s with
      | nil => exact absurd ht h
      | cons d r =>
        rw [ht] at hc
        simp only [List.head?_cons, Option.some.injEq] at hc
        exact ⟨r, by rw [hc]⟩
    obtain ⟨post, hpost⟩ : trim s <+: s.dropWhile isWhiteSpace := by
      rw [hdef]
      exact List.rdropWhile_prefix _ _
    rw [hr] at hpost
    have hhead := List.head?_dropWhile_not isWhiteSpace s
    rw [← hpost] at hhead
    simpa using hhead
  · intro c hc
    have hlast := List.rdropWhile_last_not isWhiteSpace (s.dropWhile isWhiteSpace)
      (by rw [← hdef]; exact h)
    have hne : (s.dropWhile isWhiteSpace).rdropWhile isWhiteSpace ≠ [] := by
      rw [← hdef]
      exact h
    have hc2 : ((s.dropWhile isWhiteSpace).rdropWhile isWhiteSpace).getLast hne = c := by
      have hl := List.getLast?_eq_getLast _ hne
      rw [hdef, hl] at hc
      exact Option.some.inj hc
    rw [hc2] at hlast
    simpa using hlast

theorem mem_updateFirst (p : Task → Bool) (f : Task → Task) (l : List Task) (t : Task)
    (h : t ∈ updateFirst p f l) : t ∈ l ∨ ∃ u ∈ l, t = f u := by
  induction l with
  | nil => simp [updateFirst] at h
  | cons u l ih =>
    unfold updateFirst at h
    split at h
    · rcases List.mem_cons.mp h with rfl | h1
      · exact Or.inr ⟨u, List.mem_cons_self _ _, rfl⟩
      · exact Or.inl (List.mem_cons_of_mem _ h1)
    · rcases List.mem_cons.mp h with rfl | h1
      · exact Or.inl (List.mem_cons_self _ _)
      · rcases ih h1 with h2 | ⟨v, hv, rfl⟩
        · exact Or.inl (List.mem_cons_of_mem _ h2)
        · exact Or.inr ⟨v, List.mem_cons_of_mem _ hv, rfl⟩

/-- The invariant of the task store: every task in memory has a trimmed text, and
the storage slot holds its initial content or a collection of such tasks. -/
theorem saveTasks_invariant (initial : Option JSString) (st : AppState)
    (h : ∀ t ∈ st.tasks, TextTrimmed t.text) :
    (∀ t ∈ (saveTasks st).tasks, TextTrimmed t.text) ∧
    (StoredTrimmed initial st.storage → StoredTrimmed initial (saveTasks st).storage) := by
  refine ⟨by rw [saveTasks_tasks]; exact h, ?_⟩
  intro hs
  unfold saveTasks LocalStorage.setItem
  split
  · rename_i ls heq
    split at heq
    · injection heq with heq
      subst heq
      exact Or.inr ⟨st.tasks, h, rfl⟩
    · cases heq
  · rename_i ls heq
    split at heq
    · cases heq
    · injection heq with heq
      subst heq
      exact hs

theorem apply_invariant (initial : Option JSString) (op : Operation) (st : AppState)
    (h : ∀ t ∈ st.tasks, TextTrimmed t.text) (hs : StoredTrimmed initial st.storage) :
    (∀ t ∈ (op.apply st).tasks, TextTrimmed t.text) ∧
    StoredTrimmed initial (op.apply st).storage := by
  cases op with
  | add inputText dateValue now nowISO =>
    simp only [Operation.apply, handleAddTask]
    split
    · exact ⟨h, hs⟩
    · rename_i hne
      have hne1 : trim inputText ≠ [] := by
        intro h0
        simp [h0, strTruthy] at hne
      have hinv := saveTasks_invariant initial
        { st with tasks :=
          { id := now, text := trim inputText, completed := false, starred := false,
            date := if strTruthy dateValue then some dateValue else none,
            createdAt := nowISO } :: st.tasks }
        (by
          intro t ht
          rcases List.mem_cons.mp ht with rfl | h1
          · exact trim_textTrimmed inputText hne1
          · exact h t h1)
      exact ⟨hinv.1, hinv.2 hs⟩
  | toggleCompleted taskId =>
    simp only [Operation.apply, toggleTaskComplete]
    split
    · have hinv := saveTasks_invariant initial
        { st with tasks := (updateFirst (fun t => t.id == taskId)
          (fun t => { t with completed := !t.completed }) st.tasks) }
        (by
          intro t ht
          rcases mem_updateFirst _ _ _ _ ht with h1 | ⟨u, hu, rfl⟩
          · exact h t h1
          · exact h u hu)
      exact ⟨hinv.1, hinv.2 hs⟩
    · exact ⟨h, hs⟩
  | toggleStarred taskId =>
    simp only [Operation.apply, toggleTaskStar]
    split
    · have hinv := saveTasks_invariant initial
        { st with tasks := (updateFirst (fun t => t.id == taskId)
          (fun t => { t with starred := !t.starred }) st.tasks) }
        (by
          intro t ht
          rcases mem_updateFirst _ _ _ _ ht with h1 | ⟨u, hu, rfl⟩
          · exact h t h1
          · exact h u hu)
      exact ⟨hinv.1, hinv.2 hs⟩
    · exact ⟨h, hs⟩
  | remove taskId =>
    simp only [Operation.apply, deleteTask]
    have hinv := saveTasks_invariant initial
      { st with tasks := st.tasks.filter (fun t => t.id != taskId) }
      (fun t ht => h t (List.mem_filter.mp ht).1)
    exact ⟨hinv.1, hinv.2 hs⟩
  | beginEdit taskId => exact ⟨h, hs⟩
  | commitEdit taskId newText =>
    simp only [Operation.apply, saveEditTask]
    split
    · split
      · rename_i hne
        have hne1 : trim newText ≠ [] := by
          intro h0
          simp [h0, strTruthy] at hne
        have hinv := saveTasks_invariant initial
          { st with
            tasks := (updateFirst (fun t => t.id == taskId)
              (fun t => { t with text := trim newText }) st.tasks)
            editingTaskId := none }
          (by
            intro t ht
            rcases mem_updateFirst _ _ _ _ ht with h1 | ⟨u, _, rfl⟩
            · exact h t h1
            · exact trim_textTrimmed newText hne1)
        exact ⟨hinv.1, hinv.2 hs⟩
      · exact ⟨h, hs⟩
    · exact ⟨h, hs⟩
  | cancel => exact ⟨h, hs⟩

theorem runOperations_invariant (initial : Option JSString) (ops : List Operation)
    (st : AppState) (h : ∀ t ∈ st.tasks, TextTrimmed t.text)
    (hs : StoredTrimmed initial st.storage) :
    (∀ t ∈ (runOperations ops st).tasks, TextTrimmed t.text) ∧
    StoredTrimmed initial (runOperations ops st).storage := by
  induction ops generalizing st with
  | nil => exact ⟨h, hs⟩
  | cons op ops ih =>
    have hstep := apply_invariant initial op st h hs
    exact ih (op.apply st) hstep.1 hstep.2

/-- C13: from a state with the empty collection, after any sequence of add,
toggle, delete and edit operations with any arguments, every task in the
collection has a text that is not empty and neither starts nor ends with white
space; and the storage slot holds what it held at the start or the serialisation
of a collection of such tasks. -/
theorem runOperations_texts_trimmed (ops : List Operation) (st : AppState)
    (h0 : st.tasks = []) :
    (∀ t ∈ (runOperations ops st).tasks, TextTrimmed t.text) ∧
    StoredTrimmed st.storage.tasksItem (runOperations ops st).storage :=
  runOperations_invariant st.storage.tasksItem ops st
    (by rw [h0]; intro t ht; cases ht) (Or.inl rfl)

theorem runOperations_texts_trimmed_witness :
    emptyState.tasks = [] ∧
    (runOperations exampleOperations emptyState).tasks.map (fun t => t.text) =
      [utf16 "Pay the rent"] ∧
    (∀ t ∈ (runOperations exampleOperations emptyState).tasks, TextTrimmed t.text) :=
  ⟨rfl, by decide, (runOperations_texts_trimmed exampleOperations emptyState rfl).1⟩

end Todo
